import Mathlib

/-!
The pgmoneta file `extension.c`: query execution, catalog operations and manifest loading.

A shallow embedding of `src/libpgmoneta/extension.c`.

* C strings are `List Char` (one `Char` per byte, the terminating NUL left implicit).
* The collaborators that are not part of `extension.c` (message construction, message
  execution, message release, the file system, the log) are an environment `Env` of
  oracles together with a chronological `trace` of the calls made to them.
* The caller's response slot `*qr` is part of the state (`World.slot`); whether the
  pointer `qr` itself is NULL is the parameter `qr_null`.
* The `ssl` and `socket` arguments are only passed on to `pgmoneta_query_execute`; they are
  part of the environment.
-/

namespace Pgmoneta

/-! ## Bytes used by the code -/

/-- The string terminator. -/
def NUL : Char := Char.ofNat 0
/-- Line feed. -/
def LF : Char := Char.ofNat 10
/-- Carriage return. -/
def CR : Char := Char.ofNat 13
/-- The single quote character. -/
def QUOTE : Char := Char.ofNat 39
/-- The field delimiter of the manifest. -/
def COMMA : Char := Char.ofNat 44

/-! ## Collaborators, state and trace -/

/-- One call made to a collaborator. `Msg` is the type of wire messages. -/
inductive Event (Msg : Type) where
  /-- A call of `pgmoneta_create_query_message(qs, &query_msg)`. -/
  | create_query_message (qs : List Char)
  /-- A call of `pgmoneta_query_execute(ssl, socket, query_msg, qr)`: the statement `qs`,
  framed as `msg`, is put on the channel. -/
  | query_execute (qs : List Char) (msg : Msg)
  /-- A call of `pgmoneta_free_message(msg)`. -/
  | free_message (msg : Msg)
  /-- A call of `fopen(file_path, "r")` and whether it returned a handle. -/
  | fopen (file_path : List Char) (opened : Bool)
  /-- A call of `fclose(file)`. -/
  | fclose
  /-- A call of `pgmoneta_log_error` or `pgmoneta_log_info` with its format and arguments. -/
  | log (text : String) (args : List (List Char))

/-- The state threaded through the code: the calls made so far, oldest first, and the
content of the caller's response slot `*qr` (`none` is a null pointer). -/
structure World (Msg Resp : Type) where
  trace : List (Event Msg)
  slot : Option Resp

/-- Append one call to the trace. -/
def World.emit {Msg Resp : Type} (w : World Msg Resp) (e : Event Msg) : World Msg Resp :=
  ⟨w.trace ++ [e], w.slot⟩

/-- The collaborators `extension.c` calls but does not define. Each answer may depend on
everything that happened before (the trace).

* `MESSAGE_STATUS_OK` is the status constant of `message.h`.
* `pgmoneta_create_query_message` returns its status and the value left in `query_msg`.
* `pgmoneta_query_execute` returns its `int` result and the value found in `*qr`
  afterwards (when `qr` is not NULL). -/
structure Env (Msg Resp : Type) where
  MESSAGE_STATUS_OK : Int
  pgmoneta_create_query_message : List (Event Msg) → List Char → Int × Option Msg
  pgmoneta_query_execute : List (Event Msg) → Msg → Int × Option Resp

variable {Msg Resp : Type}

/-! ## `query_execute` -/

/-- The `error:` label of `query_execute`: release the message if there is one, return 1. -/
def query_execute_error (w : World Msg Resp) (query_msg : Option Msg) : World Msg Resp × Int :=
  match query_msg with
  | some m => (w.emit (.free_message m), 1)
  | none => (w, 1)

/-- The function `query_execute(ssl, socket, qs, qr)`. -/
def query_execute (env : Env Msg Resp) (qr_null : Bool) (w : World Msg Resp) (qs : List Char) :
    World Msg Resp × Int :=
  let created := env.pgmoneta_create_query_message w.trace qs
  let w1 := w.emit (.create_query_message qs)
  if created.1 ≠ env.MESSAGE_STATUS_OK ∨ created.2.isNone = true then
    query_execute_error (w1.emit (.log "Failed to create query message" [])) created.2
  else
    match created.2 with
    | none =>
      -- not reached: the test above has sent a null `query_msg` to `error:`
      query_execute_error (w1.emit (.log "Failed to create query message" [])) none
    | some m =>
      let executed := env.pgmoneta_query_execute w1.trace m
      let w2 : World Msg Resp :=
        ⟨w1.trace ++ [.query_execute qs m], if qr_null then w1.slot else executed.2⟩
      if executed.1 ≠ 0 ∨ qr_null = true then
        query_execute_error (w2.emit (.log "Failed to execute query" [])) (some m)
      else
        (w2.emit (.free_message m), 0)

/-! ## C library functions used by the manifest loader -/

/-- The bytes `fgets` stores when it may still store `k` bytes, and the rest of the stream:
reading stops after a line feed, at end of file, or when `k` bytes are stored. -/
def fgets_read : Nat → List Char → List Char × List Char
  | 0, s => ([], s)
  | _ + 1, [] => ([], [])
  | k + 1, c :: s =>
    if c = LF then ([c], s) else (c :: (fgets_read k s).1, (fgets_read k s).2)

/-- The call `fgets(line, size, file)`: `none` (NULL) at end of file, else the bytes stored in
`line` (at most `size - 1`) and the rest of the stream. -/
def fgets (size : Nat) (stream : List Char) : Option (List Char × List Char) :=
  match stream with
  | [] => none
  | _ :: _ => some (fgets_read (size - 1) stream)

/-- The C string held by a buffer: its bytes up to the first NUL. -/
def c_str (buf : List Char) : List Char :=
  buf.takeWhile (fun c => decide (c ≠ NUL))

/-- One call of `strtok` on the string `s` (the argument of the first call, the saved pointer
of a later one): the token, if any, and the new saved pointer. -/
def strtok (s : List Char) (delim : List Char) : Option (List Char) × List Char :=
  match s.dropWhile (fun c => decide (c ∈ delim)) with
  | [] => (none, [])
  | c :: s1 =>
    (some ((c :: s1).takeWhile (fun c => decide (c ∉ delim))),
      ((c :: s1).dropWhile (fun c => decide (c ∉ delim))).drop 1)

/-- The call `strcspn(s, reject)`: the length of the initial part of `s` free of `reject`. -/
def strcspn (s : List Char) (reject : List Char) : Nat :=
  (s.takeWhile (fun c => decide (c ∉ reject))).length

/-- The call `snprintf(buf, size, ...)` whose complete output would be `full`: the string left
in `buf`. -/
def snprintf (size : Nat) (full : List Char) : List Char :=
  full.take (size - 1)

/-! ## `pgmoneta_ext_create_manifest_table` -/

/-- The statement `create_table_sql`. -/
def create_table_sql : List Char :=
  ("CREATE TABLE IF NOT EXISTS backup_manifest (" ++ "filename TEXT, " ++ "checksum TEXT);").toList

/-- The escaping loop: a quote is written before every quote of the input. -/
def escape : List Char → List Char
  | [] => []
  | c :: s => (if c = QUOTE then [QUOTE] else []) ++ c :: escape s

/-- The complete expansion of the format
`INSERT INTO backup_manifest (filename, checksum) VALUES ('%s', '%s');`. -/
def insert_format (escaped_filename escaped_checksum : List Char) : List Char :=
  "INSERT INTO backup_manifest (filename, checksum) VALUES ('".toList ++ escaped_filename
    ++ "', '".toList ++ escaped_checksum ++ "');".toList

/-- The string left in `insert_sql` by the `snprintf` of the loop body. -/
def insert_sql (filename checksum : List Char) : List Char :=
  snprintf 2048 (insert_format (escape filename) (escape checksum))

/-- The two `strtok` calls, the test `filename && checksum` and the cut of `checksum` at its
first CR or LF: the pair used by the loop body, `none` when the line is skipped. -/
def manifest_tokens (line : List Char) : Option (List Char × List Char) :=
  let first := strtok (c_str line) [COMMA]
  let second := strtok first.2 [COMMA]
  match first.1, second.1 with
  | some filename, some checksum => some (filename, checksum.take (strcspn checksum [CR, LF]))
  | _, _ => none

/-- The `while (fgets(...))` loop with the `fclose` that follows it. `fuel` bounds the number
of iterations; every iteration consumes at least one byte, so the length of the stream is
enough (`manifest_loop_fuel`). -/
def manifest_loop (env : Env Msg Resp) (qr_null : Bool) :
    Nat → List Char → World Msg Resp → World Msg Resp × Int
  | 0, _, w => (w.emit .fclose, 0)
  | fuel + 1, stream, w =>
    match fgets 128 stream with
    | none => (w.emit .fclose, 0)
    | some (line, rest) =>
      match manifest_tokens line with
      | some (filename, checksum) =>
        let r := query_execute env qr_null w (insert_sql filename checksum)
        if r.2 ≠ 0 then
          ((r.1.emit (.log "Failed to insert into backup_manifest: %s, %s"
            [filename, checksum])).emit .fclose, r.2)
        else manifest_loop env qr_null fuel rest r.1
      | none => manifest_loop env qr_null fuel rest w

/-- The function `pgmoneta_ext_create_manifest_table(ssl, socket, file_path, qr)`. `file` is
what `fopen(file_path, "r")` finds: `none` when the file cannot be opened, else its bytes. -/
def pgmoneta_ext_create_manifest_table (env : Env Msg Resp) (qr_null : Bool)
    (file_path : List Char) (file : Option (List Char)) (w : World Msg Resp) :
    World Msg Resp × Int :=
  let r := query_execute env qr_null w create_table_sql
  if r.2 ≠ 0 then
    (r.1.emit (.log "Failed to create backup_manifest table" []), r.2)
  else
    match file with
    | none =>
      ((r.1.emit (.fopen file_path false)).emit
        (.log "Failed to open backup.manifest file: %s" [file_path]), 1)
    | some content =>
      manifest_loop env qr_null content.length content (r.1.emit (.fopen file_path true))

/-! ## Observations on a trace -/

/-- The statements handed to `query_execute`, in order (each call starts by constructing the
message of its statement). -/
def attempted (t : List (Event Msg)) : List (List Char) :=
  t.filterMap (fun e => match e with
    | .create_query_message qs => some qs
    | _ => none)

/-- The statements put on the channel, in order. -/
def sent (t : List (Event Msg)) : List (List Char) :=
  t.filterMap (fun e => match e with
    | .query_execute qs _ => some qs
    | _ => none)

/-- The messages released, in order. -/
def released (t : List (Event Msg)) : List Msg :=
  t.filterMap (fun e => match e with
    | .free_message m => some m
    | _ => none)

/-- The number of calls of `pgmoneta_create_query_message`. -/
def construction_calls (t : List (Event Msg)) : Nat :=
  (attempted t).length

/-- The number of calls of `pgmoneta_free_message`. -/
def release_calls (t : List (Event Msg)) : Nat :=
  (released t).length

/-- The calls of `fopen`, in order, with their outcome. -/
def fopen_calls (t : List (Event Msg)) : List Bool :=
  t.filterMap (fun e => match e with
    | .fopen _ opened => some opened
    | _ => none)

/-- The number of calls of `fclose`. -/
def fclose_calls (t : List (Event Msg)) : Nat :=
  (t.filter (fun e => match e with
    | .fclose => true
    | _ => false)).length

/-- The number of file handles acquired and not yet released. -/
def open_handles (t : List (Event Msg)) : Int :=
  ((fopen_calls t).count true : Int) - (fclose_calls t : Int)

/-- A world in which nothing has happened yet. -/
def World.initial : World Msg Resp := ⟨[], none⟩

/-! ## Concrete environments -/

/-- A channel on which every statement succeeds: the message of a statement is the
statement itself, and every execution stores a response. -/
def env_ok : Env (List Char) Unit where
  MESSAGE_STATUS_OK := 1
  pgmoneta_create_query_message := fun _ qs => (1, some qs)
  pgmoneta_query_execute := fun _ _ => (0, some ())

/-- Message construction fails and leaves no message. -/
def env_no_message : Env (List Char) Unit where
  MESSAGE_STATUS_OK := 1
  pgmoneta_create_query_message := fun _ _ => (2, none)
  pgmoneta_query_execute := fun _ _ => (0, some ())

/-- Message construction succeeds; execution returns 0 but stores no response in `*qr`. -/
def env_no_response : Env (List Char) Unit where
  MESSAGE_STATUS_OK := 1
  pgmoneta_create_query_message := fun _ qs => (1, some qs)
  pgmoneta_query_execute := fun _ _ => (0, none)

/-- A test statement. -/
def select_one : List Char := "SELECT 1;".toList

/-! ## The escaping loop -/

/-- Collapse every doubled single quote to one single quote, left to right. -/
def unescape : List Char → List Char
  | [] => []
  | [c] => [c]
  | c :: d :: s =>
    if c = QUOTE ∧ d = QUOTE then QUOTE :: unescape s else c :: unescape (d :: s)

/-- The replacement the escaping is meant to perform on one byte. -/
def double_quote (c : Char) : List Char :=
  if c = QUOTE then [QUOTE, QUOTE] else [c]

/-! ## The manifest loop, seen as parsing followed by inserting -/

/-- The (filename, checksum) pairs of the lines the loop does not skip, in file order: the
reading and tokenising part of `manifest_loop`. -/
def manifest_entries : Nat → List Char → List (List Char × List Char)
  | 0, _ => []
  | fuel + 1, stream =>
    match fgets 128 stream with
    | none => []
    | some (line, rest) =>
      match manifest_tokens line with
      | some entry => entry :: manifest_entries fuel rest
      | none => manifest_entries fuel rest

/-- The inserting part of `manifest_loop`: one `query_execute` per pair, stopping at the first
result other than 0, then `fclose`. -/
def insert_entries (env : Env Msg Resp) (qr_null : Bool) :
    List (List Char × List Char) → World Msg Resp → World Msg Resp × Int
  | [], w => (w.emit .fclose, 0)
  | (filename, checksum) :: entries, w =>
    let r := query_execute env qr_null w (insert_sql filename checksum)
    if r.2 ≠ 0 then
      ((r.1.emit (.log "Failed to insert into backup_manifest: %s, %s"
        [filename, checksum])).emit .fclose, r.2)
    else insert_entries env qr_null entries r.1

/-- The position (from 1) of the first pair whose INSERT fails when the INSERTs of `entries`
are executed in order from the world `w`; `none` when all of them succeed. -/
def first_failure (env : Env Msg Resp) (qr_null : Bool) :
    List (List Char × List Char) → World Msg Resp → Option Nat
  | [], _ => none
  | (filename, checksum) :: entries, w =>
    let r := query_execute env qr_null w (insert_sql filename checksum)
    if r.2 ≠ 0 then some 1
    else (first_failure env qr_null entries r.1).map (fun k => k + 1)

/-- A manifest line `filename,checksum` terminated by LF or by CR LF. -/
structure ManifestEntry where
  filename : List Char
  checksum : List Char
  crlf : Bool

/-- The line terminator. -/
def ManifestEntry.terminator (e : ManifestEntry) : List Char :=
  if e.crlf then [CR, LF] else [LF]

/-- The bytes of the line in the file. -/
def ManifestEntry.line (e : ManifestEntry) : List Char :=
  e.filename ++ COMMA :: (e.checksum ++ e.terminator)

/-- The line splits into a filename and a checksum and fits the read buffer: both fields are
non-empty, neither holds a comma, a NUL or a line feed, the checksum holds no carriage
return, and the line with its terminator has at most 127 bytes. -/
def ManifestEntry.well_formed (e : ManifestEntry) : Prop :=
  e.filename ≠ [] ∧ e.checksum ≠ []
    ∧ (∀ c ∈ e.filename, c ≠ COMMA ∧ c ≠ NUL ∧ c ≠ LF)
    ∧ (∀ c ∈ e.checksum, c ≠ COMMA ∧ c ≠ NUL ∧ c ≠ CR ∧ c ≠ LF)
    ∧ e.line.length ≤ 127

instance (e : ManifestEntry) : Decidable e.well_formed := by
  unfold ManifestEntry.well_formed
  infer_instance

/-- The bytes of a manifest file made of the given lines. -/
def manifest_file (entries : List ManifestEntry) : List Char :=
  entries.flatMap ManifestEntry.line

/-- The INSERT statement of a line: the format filled with the escaped fields. -/
def ManifestEntry.insert (e : ManifestEntry) : List Char :=
  insert_format (escape e.filename) (escape e.checksum)

/-- A channel that accepts two statements and fails on every later one. -/
def env_two_then_fail : Env (List Char) Unit where
  MESSAGE_STATUS_OK := 1
  pgmoneta_create_query_message := fun _ qs => (1, some qs)
  pgmoneta_query_execute := fun t _ => if (sent t).length < 2 then (0, some ()) else (1, none)

/-- The world in which the read loop starts: after the create-table statement and the
successful `fopen`. -/
def loop_start (env : Env Msg Resp) (qr_null : Bool) (file_path : List Char)
    (w : World Msg Resp) : World Msg Resp :=
  (query_execute env qr_null w create_table_sql).1.emit (.fopen file_path true)

/-- The path used in the examples. -/
def manifest_path : List Char := "backup.manifest".toList

/-- The two lines of the example scenario of the specification. -/
def example_entries : List ManifestEntry :=
  [⟨"a.txt".toList, "abc123".toList, false⟩, ⟨"b.txt".toList, "def'456".toList, false⟩]

/-- A manifest of three lines. -/
def three_lines : List Char := "a,b\nc,d\ne,f\n".toList

/-- A channel on which every statement is framed and sent, and fails at execution. -/
def env_rejects : Env (List Char) Unit where
  MESSAGE_STATUS_OK := 1
  pgmoneta_create_query_message := fun _ qs => (1, some qs)
  pgmoneta_query_execute := fun _ _ => (1, none)

/-- A manifest whose first line has a filename, a comma and no checksum. -/
def missing_checksum : List Char := "abc,\nx,y\n".toList

/-- The same manifest without its first line. -/
def missing_checksum_absent : List Char := "x,y\n".toList

/-- A manifest with an empty line, a line without comma, a complete line, and a final line
`abc,` that has no line terminator. -/
def short_lines : List Char := "\nabc\nx,y\nabc,".toList

/-! ## Tokens, described without `strtok` -/

/-- The fields of a string: the string split at every comma, empty fields included. -/
def split_fields : List Char → List (List Char)
  | [] => [[]]
  | c :: s =>
    if c = COMMA then [] :: split_fields s
    else
      match split_fields s with
      | r :: rs => (c :: r) :: rs
      | [] => [[c]]

/-- The maximal non-empty runs of non-comma bytes of a string, in order. -/
def comma_runs (s : List Char) : List (List Char) :=
  (split_fields s).filter (fun r => !r.isEmpty)

/-- A token cut at its first CR or LF. -/
def cut_eol (tok : List Char) : List Char :=
  tok.takeWhile (fun c => decide (c ≠ CR ∧ c ≠ LF))

/-- What holds of every pair the loop inserts: the filename is non-empty and free of commas,
line feeds and NULs; the checksum is free of commas, carriage returns, line feeds and NULs. -/
def fields_invariant (filename checksum : List Char) : Prop :=
  filename ≠ []
    ∧ (∀ x ∈ filename, x ≠ COMMA ∧ x ≠ LF ∧ x ≠ NUL)
    ∧ (∀ x ∈ checksum, x ≠ COMMA ∧ x ≠ CR ∧ x ≠ LF ∧ x ≠ NUL)

instance (filename checksum : List Char) : Decidable (fields_invariant filename checksum) := by
  unfold fields_invariant
  infer_instance

/-- A manifest whose only line has a carriage return inside the filename. -/
def cr_in_filename : List Char := [Char.ofNat 97, CR, Char.ofNat 98, COMMA, Char.ofNat 99, LF]

/-- The pairs the loop reads from what `fopen` found: none when the file cannot be opened. -/
def file_entries (file : Option (List Char)) : List (List Char × List Char) :=
  match file with
  | none => []
  | some content => manifest_entries content.length content

/-- A line of text as it stands in a file: at most 127 bytes, the last one a line feed and no
other line feed before it. -/
def text_line (l : List Char) : Prop :=
  l.length ≤ 127 ∧ l.getLast? = some LF ∧ ∀ c ∈ l.dropLast, c ≠ LF

instance (l : List Char) : Decidable (text_line l) := by
  unfold text_line
  infer_instance

/-- The INSERT statement of a line, if any, in terms of its runs of non-comma bytes: the first
run and the second run cut at its first CR or LF; nothing when there are fewer than two runs. -/
def line_insert (l : List Char) : Option (List Char) :=
  match comma_runs (c_str l) with
  | filename :: checksum :: _ => some (insert_sql filename (cut_eol checksum))
  | _ => none

/-- A manifest whose only line has three fields. -/
def three_fields : List Char := "a,b,c\n".toList

/-- Lines with three fields, one field and two fields. -/
def mixed_lines : List (List Char) := ["a,b,c\n".toList, "x\n".toList, "p,q\n".toList]

/-! ## The catalog operations that take a path -/

/-- The complete expansion of the format `SELECT pgmoneta_ext_get_file('%s');`. -/
def get_file_format (file_path : List Char) : List Char :=
  "SELECT pgmoneta_ext_get_file('".toList ++ file_path ++ "');".toList

/-- The complete expansion of the format `SELECT pgmoneta_ext_get_files('%s');`. -/
def get_files_format (file_path : List Char) : List Char :=
  "SELECT pgmoneta_ext_get_files('".toList ++ file_path ++ "');".toList

/-- The function `pgmoneta_ext_get_file(ssl, socket, file_path, qr)`. `MAX_QUERY_LENGTH` is
the macro of the headers, the size of the local buffer `query`. -/
def pgmoneta_ext_get_file (env : Env Msg Resp) (qr_null : Bool) (MAX_QUERY_LENGTH : Nat)
    (file_path : List Char) (w : World Msg Resp) : World Msg Resp × Int :=
  query_execute env qr_null w (snprintf MAX_QUERY_LENGTH (get_file_format file_path))

/-- The function `pgmoneta_ext_get_files(ssl, socket, file_path, qr)`. -/
def pgmoneta_ext_get_files (env : Env Msg Resp) (qr_null : Bool) (MAX_QUERY_LENGTH : Nat)
    (file_path : List Char) (w : World Msg Resp) : World Msg Resp × Int :=
  query_execute env qr_null w (snprintf MAX_QUERY_LENGTH (get_files_format file_path))

/-- A path of 1000 bytes. -/
def long_path : List Char := List.replicate 1000 (Char.ofNat 97)

/-- A short path. -/
def short_path : List Char := "/tmp/it's".toList

/-! ## The escaping loop with the bounds of its output buffer -/

/-- The store `*ptr++ = c` into a buffer of `size` bytes of which the bytes `out` are written:
`none` when the store falls outside the buffer. -/
def store_byte (size : Nat) (out : List Char) (c : Char) : Option (List Char) :=
  if out.length < size then some (out ++ [c]) else none

/-- The escaping loop writing into a buffer of `size` bytes, from the bytes `out` already
written: the string left in the buffer, or `none` when a store (of a byte or of the final
terminator) falls outside the buffer. -/
def escape_into (size : Nat) : List Char → List Char → Option (List Char)
  | [], out => if out.length < size then some out else none
  | c :: s, out =>
    match (if c = QUOTE then store_byte size out QUOTE else some out) with
    | none => none
    | some out1 =>
      match store_byte size out1 c with
      | none => none
      | some out2 => escape_into size s out2

/-- A manifest of one short line. -/
def one_line : List Char := "a,b\n".toList

/-- A manifest whose only line has a carriage return inside the checksum: `f,ab<CR>cd`. -/
def cr_in_checksum : List Char :=
  [Char.ofNat 102, COMMA, Char.ofNat 97, Char.ofNat 98, CR, Char.ofNat 99, Char.ofNat 100, LF]

/-- A line terminated by CR LF: `f,ab<CR><LF>`. -/
def crlf_line : List Char := [Char.ofNat 102, COMMA, Char.ofNat 97, Char.ofNat 98, CR, LF]

/-! ## Runs of quotes and the reading of a quoted literal -/

/-- The lengths of the maximal runs of single quotes of a string, in order; `n` is the length
of the run that ends just before the string. -/
def quote_runs_from : List Char → Nat → List Nat
  | [], n => if n = 0 then [] else [n]
  | c :: s, n =>
    if c = QUOTE then quote_runs_from s (n + 1)
    else (if n = 0 then [] else [n]) ++ quote_runs_from s 0

/-- The lengths of the maximal runs of single quotes of a string. -/
def quote_runs (s : List Char) : List Nat :=
  quote_runs_from s 0

/-- A scanner for a single-quoted SQL literal, started just after the opening quote: two
quotes in a row stand for one quote of the value, a quote followed by anything else (or by
the end of the input) closes the literal. It returns the value and the input that follows
the closing quote, or `none` when the input ends inside the literal. -/
def scan_literal : List Char → Option (List Char × List Char)
  | [] => none
  | [c] => if c = QUOTE then some ([], []) else none
  | c :: d :: s =>
    if c = QUOTE then
      if d = QUOTE then (scan_literal s).map (fun p => (QUOTE :: p.1, p.2))
      else some ([], d :: s)
    else (scan_literal (d :: s)).map (fun p => (c :: p.1, p.2))

/-! ## The records of a file, described without `fgets` -/

/-- The successive chunks of a bounded line read that stores at most `n` bytes per call: a
chunk is closed by a line feed or when it holds `n` bytes, whichever comes first; `cur` is the
chunk being filled. -/
def line_chunks_from (n : Nat) : List Char → List Char → List (List Char)
  | [], cur => if cur.isEmpty then [] else [cur]
  | c :: s, cur =>
    if c = LF ∨ cur.length + 1 = n then (cur ++ [c]) :: line_chunks_from n s []
    else line_chunks_from n s (cur ++ [c])

/-- The chunks of a file read with a 128-byte buffer: at most 127 bytes each. -/
def line_chunks (content : List Char) : List (List Char) :=
  line_chunks_from 127 content []

/-- The three lines `,a,b`, `a,,b` and `a,b`. -/
def comma_variants : List (List Char) := [",a,b\n".toList, "a,,b\n".toList, "a,b\n".toList]

/-- A single line of 141 bytes: 63 `x`, a comma, 70 `y`, a comma, 5 `z`, a line feed. -/
def long_line : List Char :=
  List.replicate 63 (Char.ofNat 120) ++ COMMA :: List.replicate 70 (Char.ofNat 121)
    ++ COMMA :: List.replicate 5 (Char.ofNat 122) ++ [LF]

/-! ## The escaping loop: statements -/

/-- C3: for every string `s` with `n` single quotes, the escaped string has length
`len(s) + n`, it is `s` with each single quote replaced by two single quotes, and the bytes
other than quotes are those of `s`, in the same order. -/
theorem escape_doubles_quotes (s : List Char) :
    (escape s).length = s.length + s.count QUOTE
      ∧ escape s = s.flatMap double_quote
      ∧ (escape s).filter (fun c => decide (c ≠ QUOTE))
          = s.filter (fun c => decide (c ≠ QUOTE)) := by
  induction s with
  | nil => simp [escape]
  | cons c s ih =>
    obtain ⟨h1, h2, h3⟩ := ih
    simp only [ne_eq, decide_not] at h3 ⊢
    by_cases hc : c = QUOTE
    · subst hc
      refine ⟨?_, ?_, ?_⟩
      · simp [escape, h1]; omega
      · simp [escape, h2, double_quote]
      · simp [escape, h3]
    · refine ⟨?_, ?_, ?_⟩
      · simp [escape, hc, h1, List.count_cons, Ne.symm hc]; omega
      · simp [escape, hc, h2, double_quote]
      · simp [escape, hc, h3]

/-- C4: escaping a string and then collapsing every doubled single quote gives the string
back. -/
theorem unescape_escape (s : List Char) : unescape (escape s) = s := by
  induction s with
  | nil => simp [escape, unescape]
  | cons c s ih =>
    by_cases hc : c = QUOTE
    · subst hc
      simp [escape, unescape, ih]
    · cases hs : escape s with
      | nil =>
        rw [hs] at ih
        simp [escape, hc, hs, unescape]
        simpa [unescape] using ih
      | cons d t =>
        rw [hs] at ih
        simp [escape, hc, hs, unescape, ih]

/-! ## Observations: bookkeeping -/

@[simp] theorem attempted_append (a b : List (Event Msg)) :
    attempted (a ++ b) = attempted a ++ attempted b := by
  simp [attempted]

@[simp] theorem sent_append (a b : List (Event Msg)) : sent (a ++ b) = sent a ++ sent b := by
  simp [sent]

@[simp] theorem released_append (a b : List (Event Msg)) :
    released (a ++ b) = released a ++ released b := by
  simp [released]

@[simp] theorem fopen_calls_append (a b : List (Event Msg)) :
    fopen_calls (a ++ b) = fopen_calls a ++ fopen_calls b := by
  simp [fopen_calls]

@[simp] theorem fclose_calls_append (a b : List (Event Msg)) :
    fclose_calls (a ++ b) = fclose_calls a + fclose_calls b := by
  simp [fclose_calls]

@[simp] theorem emit_trace (w : World Msg Resp) (e : Event Msg) :
    (w.emit e).trace = w.trace ++ [e] := rfl

@[simp] theorem emit_slot (w : World Msg Resp) (e : Event Msg) : (w.emit e).slot = w.slot := rfl

/-! ## `query_execute` -/

/-- Construction left no message: the `error:` label has nothing to release. -/
theorem query_execute_no_message (env : Env Msg Resp) (qr_null : Bool) (w : World Msg Resp)
    (qs : List Char) (hm : (env.pgmoneta_create_query_message w.trace qs).2 = none) :
    query_execute env qr_null w qs
      = (⟨w.trace ++ [.create_query_message qs, .log "Failed to create query message" []],
          w.slot⟩, 1) := by
  simp [query_execute, hm, query_execute_error, World.emit]

/-- Construction left a message with a status other than OK: the message is released. -/
theorem query_execute_bad_status (env : Env Msg Resp) (qr_null : Bool) (w : World Msg Resp)
    (qs : List Char) (m : Msg) (hm : (env.pgmoneta_create_query_message w.trace qs).2 = some m)
    (hs : (env.pgmoneta_create_query_message w.trace qs).1 ≠ env.MESSAGE_STATUS_OK) :
    query_execute env qr_null w qs
      = (⟨w.trace ++ [.create_query_message qs, .log "Failed to create query message" [],
          .free_message m], w.slot⟩, 1) := by
  simp [query_execute, hm, hs, query_execute_error, World.emit]

/-- Construction succeeded and the second test of `query_execute` fails. -/
theorem query_execute_failed (env : Env Msg Resp) (qr_null : Bool) (w : World Msg Resp)
    (qs : List Char) (m : Msg) (hm : (env.pgmoneta_create_query_message w.trace qs).2 = some m)
    (hs : (env.pgmoneta_create_query_message w.trace qs).1 = env.MESSAGE_STATUS_OK)
    (he : (env.pgmoneta_query_execute (w.trace ++ [.create_query_message qs]) m).1 ≠ 0
      ∨ qr_null = true) :
    query_execute env qr_null w qs
      = (⟨w.trace ++ [.create_query_message qs, .query_execute qs m,
          .log "Failed to execute query" [], .free_message m],
          if qr_null then w.slot
          else (env.pgmoneta_query_execute (w.trace ++ [.create_query_message qs]) m).2⟩, 1) := by
  simp only [query_execute, hm, hs, query_execute_error, World.emit]
  simp [he]

/-- Construction succeeded and the second test of `query_execute` passes. -/
theorem query_execute_passed (env : Env Msg Resp) (w : World Msg Resp)
    (qs : List Char) (m : Msg) (hm : (env.pgmoneta_create_query_message w.trace qs).2 = some m)
    (hs : (env.pgmoneta_create_query_message w.trace qs).1 = env.MESSAGE_STATUS_OK)
    (he : (env.pgmoneta_query_execute (w.trace ++ [.create_query_message qs]) m).1 = 0) :
    query_execute env false w qs
      = (⟨w.trace ++ [.create_query_message qs, .query_execute qs m, .free_message m],
          (env.pgmoneta_query_execute (w.trace ++ [.create_query_message qs]) m).2⟩, 0) := by
  simp only [query_execute, hm, hs, query_execute_error, World.emit]
  simp [he]

/-- The four paths of `query_execute`. -/
theorem query_execute_cases (env : Env Msg Resp) (qr_null : Bool) (w : World Msg Resp)
    (qs : List Char) :
    ((env.pgmoneta_create_query_message w.trace qs).2 = none)
    ∨ (∃ m, (env.pgmoneta_create_query_message w.trace qs).2 = some m
        ∧ (env.pgmoneta_create_query_message w.trace qs).1 ≠ env.MESSAGE_STATUS_OK)
    ∨ (∃ m, (env.pgmoneta_create_query_message w.trace qs).2 = some m
        ∧ (env.pgmoneta_create_query_message w.trace qs).1 = env.MESSAGE_STATUS_OK
        ∧ ((env.pgmoneta_query_execute (w.trace ++ [.create_query_message qs]) m).1 ≠ 0
          ∨ qr_null = true))
    ∨ (∃ m, (env.pgmoneta_create_query_message w.trace qs).2 = some m
        ∧ (env.pgmoneta_create_query_message w.trace qs).1 = env.MESSAGE_STATUS_OK
        ∧ (env.pgmoneta_query_execute (w.trace ++ [.create_query_message qs]) m).1 = 0
        ∧ qr_null = false) := by
  cases hm : (env.pgmoneta_create_query_message w.trace qs).2 with
  | none => exact Or.inl rfl
  | some m =>
    by_cases hs : (env.pgmoneta_create_query_message w.trace qs).1 = env.MESSAGE_STATUS_OK
    · by_cases he : (env.pgmoneta_query_execute (w.trace ++ [.create_query_message qs]) m).1 = 0
      · cases qr_null
        · exact Or.inr (Or.inr (Or.inr ⟨m, rfl, hs, he, rfl⟩))
        · exact Or.inr (Or.inr (Or.inl ⟨m, rfl, hs, Or.inr rfl⟩))
      · exact Or.inr (Or.inr (Or.inl ⟨m, rfl, hs, Or.inl he⟩))
    · exact Or.inr (Or.inl ⟨m, rfl, hs⟩)

/-- The calls made by `query_execute`: the construction call, then the execution call when a
message was constructed with status OK, then a log entry on failure, then the release of the
message when there is one. -/
theorem query_execute_trace (env : Env Msg Resp) (qr_null : Bool) (w : World Msg Resp)
    (qs : List Char) :
    ∃ evs, (query_execute env qr_null w qs).1.trace = w.trace ++ evs
      ∧ attempted evs = [qs]
      ∧ (sent evs = [] ∨ sent evs = [qs])
      ∧ ((query_execute env qr_null w qs).2 = 0 → sent evs = [qs])
      ∧ released evs = (env.pgmoneta_create_query_message w.trace qs).2.toList
      ∧ fopen_calls evs = [] ∧ fclose_calls evs = 0
      ∧ ((query_execute env qr_null w qs).2 = 0 ∨ (query_execute env qr_null w qs).2 = 1) := by
  rcases query_execute_cases env qr_null w qs with hm | ⟨m, hm, hs⟩ | ⟨m, hm, hs, he⟩
    | ⟨m, hm, hs, he, hq⟩
  · rw [query_execute_no_message env qr_null w qs hm]
    exact ⟨_, rfl, by simp [attempted, sent, released, fopen_calls, fclose_calls, hm]⟩
  · rw [query_execute_bad_status env qr_null w qs m hm hs]
    exact ⟨_, rfl, by simp [attempted, sent, released, fopen_calls, fclose_calls, hm]⟩
  · rw [query_execute_failed env qr_null w qs m hm hs he]
    exact ⟨_, rfl, by simp [attempted, sent, released, fopen_calls, fclose_calls, hm]⟩
  · subst hq
    rw [query_execute_passed env w qs m hm hs he]
    exact ⟨_, rfl, by simp [attempted, sent, released, fopen_calls, fclose_calls, hm]⟩


/-- C9: if message construction fails (a status other than OK) or leaves no message,
`query_execute` returns 1 and the execution step is not called, so nothing is put on the
channel; `query_execute` returns 0 only if construction returned OK with a message and the
execution step returned 0; and its result is always 0 or 1. -/
theorem query_execute_construction_failure (env : Env Msg Resp) (qr_null : Bool)
    (w : World Msg Resp) (qs : List Char) :
    ((env.pgmoneta_create_query_message w.trace qs).1 ≠ env.MESSAGE_STATUS_OK
        ∨ (env.pgmoneta_create_query_message w.trace qs).2 = none →
      (query_execute env qr_null w qs).2 = 1
        ∧ sent (query_execute env qr_null w qs).1.trace = sent w.trace)
    ∧ ((query_execute env qr_null w qs).2 = 0 →
        (env.pgmoneta_create_query_message w.trace qs).1 = env.MESSAGE_STATUS_OK
          ∧ ∃ m, (env.pgmoneta_create_query_message w.trace qs).2 = some m
            ∧ (env.pgmoneta_query_execute (w.trace ++ [.create_query_message qs]) m).1 = 0)
    ∧ ((query_execute env qr_null w qs).2 = 0 ∨ (query_execute env qr_null w qs).2 = 1) := by
  rcases query_execute_cases env qr_null w qs with hm | ⟨m, hm, hs⟩ | ⟨m, hm, hs, he⟩
    | ⟨m, hm, hs, he, hq⟩
  · rw [query_execute_no_message env qr_null w qs hm]
    simp [sent]
  · rw [query_execute_bad_status env qr_null w qs m hm hs]
    simp [sent]
  · rw [query_execute_failed env qr_null w qs m hm hs he]
    simp [hs, hm]
  · subst hq
    rw [query_execute_passed env w qs m hm hs he]
    simp [hs, hm, he]

/-- C9 at a concrete input: construction answers status 2 and no message. -/
theorem query_execute_construction_failure_witness :
    (query_execute env_no_message false World.initial select_one).2 = 1
      ∧ sent (query_execute env_no_message false World.initial select_one).1.trace
          = sent (World.initial : World (List Char) Unit).trace :=
  (query_execute_construction_failure env_no_message false World.initial select_one).1
    (Or.inl (by decide))

/-- C8 at the failing input: construction succeeds, the execution step returns 0 and stores no
response; `query_execute` returns 0 although the caller's slot is still empty. -/
theorem query_execute_success_without_response :
    (World.initial : World (List Char) Unit).slot = none
      ∧ (query_execute env_no_response false World.initial select_one).2 = 0
      ∧ (query_execute env_no_response false World.initial select_one).1.slot = none := by
  decide

/-- C10 as stated fails: when construction leaves no message there is one construction call
and no release call. -/
theorem release_calls_ne_construction_calls :
    construction_calls (query_execute env_no_message false World.initial select_one).1.trace = 1
      ∧ release_calls (query_execute env_no_message false World.initial select_one).1.trace = 0
      ∧ release_calls (query_execute env_no_message false World.initial select_one).1.trace
        ≠ construction_calls
            (query_execute env_no_message false World.initial select_one).1.trace := by
  decide

/-- C10, amended: every call of `query_execute` makes exactly one construction call, and on
each of its paths the messages it releases are exactly the message that construction left, if
any: that message is released once, and nothing is released when there is none. -/
theorem query_execute_releases_constructed (env : Env Msg Resp) (qr_null : Bool)
    (w : World Msg Resp) (qs : List Char) :
    construction_calls (query_execute env qr_null w qs).1.trace = construction_calls w.trace + 1
      ∧ released (query_execute env qr_null w qs).1.trace
          = released w.trace ++ (env.pgmoneta_create_query_message w.trace qs).2.toList
      ∧ release_calls (query_execute env qr_null w qs).1.trace
          = release_calls w.trace
            + (if (env.pgmoneta_create_query_message w.trace qs).2.isSome then 1 else 0) := by
  obtain ⟨evs, ht, ha, -, -, hr, -⟩ := query_execute_trace env qr_null w qs
  rw [ht]
  refine ⟨by simp [construction_calls, ha], by simp [hr], ?_⟩
  cases hm : (env.pgmoneta_create_query_message w.trace qs).2 <;>
    simp [release_calls, hr, hm]

/-! ## The manifest loop -/

/-- What `fgets_read` returns is a split of the stream. -/
theorem fgets_read_append (k : Nat) (s : List Char) :
    (fgets_read k s).1 ++ (fgets_read k s).2 = s := by
  induction k generalizing s with
  | zero => simp [fgets_read]
  | succ k ih =>
    cases s with
    | nil => simp [fgets_read]
    | cons c s =>
      by_cases hc : c = LF
      · simp [fgets_read, hc]
      · simp [fgets_read, hc, ih]

/-- Every successful `fgets` with a buffer of at least two bytes consumes at least one byte. -/
theorem fgets_rest_length (size : Nat) (hsize : 2 ≤ size) (stream line rest : List Char)
    (h : fgets size stream = some (line, rest)) : rest.length < stream.length := by
  cases stream with
  | nil => simp [fgets] at h
  | cons c s =>
    obtain ⟨k, rfl⟩ : ∃ k, size = k + 2 := ⟨size - 2, by omega⟩
    simp only [fgets, Option.some.injEq] at h
    change fgets_read (k + 1) (c :: s) = (line, rest) at h
    have h2 : (fgets_read (k + 1) (c :: s)).2 = rest := by rw [h]
    by_cases hc : c = LF
    · simp [fgets_read, hc] at h2
      simp [← h2]
    · simp only [fgets_read, hc, if_false] at h2
      have := congrArg List.length (fgets_read_append k s)
      simp only [List.length_append] at this
      simp only [List.length_cons, ← h2]
      omega

/-- More fuel than the length of the stream does not change the pairs read. -/
theorem manifest_entries_succ (fuel : Nat) (stream : List Char) (h : stream.length ≤ fuel) :
    manifest_entries (fuel + 1) stream = manifest_entries fuel stream := by
  induction fuel generalizing stream with
  | zero =>
    have : stream = [] := List.length_eq_zero.mp (Nat.le_zero.mp h)
    subst this
    simp [manifest_entries, fgets]
  | succ fuel ih =>
    rw [manifest_entries, manifest_entries]
    cases hf : fgets 128 stream with
    | none => rfl
    | some p =>
      obtain ⟨line, rest⟩ := p
      have hlt := fgets_rest_length 128 (by decide) stream line rest hf
      have hrest : rest.length ≤ fuel := by omega
      simp only [ih rest hrest]

/-- The pairs read do not depend on the fuel once it covers the stream. -/
theorem manifest_entries_fuel (fuel : Nat) (stream : List Char) (h : stream.length ≤ fuel) :
    manifest_entries fuel stream = manifest_entries stream.length stream := by
  induction fuel with
  | zero =>
    have : stream.length = 0 := Nat.le_zero.mp h
    rw [this]
  | succ fuel ih =>
    by_cases hs : stream.length ≤ fuel
    · rw [manifest_entries_succ fuel stream hs, ih hs]
    · have : stream.length = fuel + 1 := by omega
      rw [this]

/-- The loop is the insertion, in order, of the pairs read from the stream. -/
theorem manifest_loop_eq (env : Env Msg Resp) (qr_null : Bool) (fuel : Nat)
    (stream : List Char) (w : World Msg Resp) :
    manifest_loop env qr_null fuel stream w
      = insert_entries env qr_null (manifest_entries fuel stream) w := by
  induction fuel generalizing stream w with
  | zero => simp [manifest_loop, manifest_entries, insert_entries]
  | succ fuel ih =>
    rw [manifest_loop, manifest_entries]
    cases hf : fgets 128 stream with
    | none => simp [insert_entries]
    | some p =>
      obtain ⟨line, rest⟩ := p
      cases ht : manifest_tokens line with
      | none => simp only [ht, ih]
      | some entry =>
        obtain ⟨filename, checksum⟩ := entry
        simp only [ht, insert_entries, ih]

/-- The loop does not depend on the fuel once it covers the stream: the loop terminates
within `stream.length` iterations. -/
theorem manifest_loop_fuel (env : Env Msg Resp) (qr_null : Bool) (fuel : Nat)
    (stream : List Char) (w : World Msg Resp) (h : stream.length ≤ fuel) :
    manifest_loop env qr_null fuel stream w
      = manifest_loop env qr_null stream.length stream w := by
  rw [manifest_loop_eq, manifest_loop_eq, manifest_entries_fuel fuel stream h]

/-! ## Reading and tokenising a well-formed line -/

/-- A scan of `a ++ x :: b` that accepts all of `a` and rejects `x` keeps exactly `a`. -/
theorem takeWhile_append_stop (p : Char → Bool) (a : List Char) (x : Char) (b : List Char)
    (ha : ∀ c ∈ a, p c = true) (hx : p x = false) : (a ++ x :: b).takeWhile p = a := by
  rw [List.takeWhile_append_of_pos ha]
  simp [List.takeWhile_cons, hx]

/-- A scan of `a ++ x :: b` that accepts all of `a` and rejects `x` leaves `x :: b`. -/
theorem dropWhile_append_stop (p : Char → Bool) (a : List Char) (x : Char) (b : List Char)
    (ha : ∀ c ∈ a, p c = true) (hx : p x = false) : (a ++ x :: b).dropWhile p = x :: b := by
  rw [List.dropWhile_append_of_pos ha]
  simp [List.dropWhile_cons, hx]

/-- A line of fewer than `k` bytes before its line feed is read whole, line feed included. -/
theorem fgets_read_line (k : Nat) (body rest : List Char) (hLF : ∀ c ∈ body, c ≠ LF)
    (hk : body.length < k) : fgets_read k (body ++ LF :: rest) = (body ++ [LF], rest) := by
  induction body generalizing k with
  | nil =>
    obtain ⟨k, rfl⟩ : ∃ j, k = j + 1 := ⟨k - 1, by simp at hk; omega⟩
    simp [fgets_read]
  | cons c body ih =>
    obtain ⟨k, rfl⟩ : ∃ j, k = j + 1 := ⟨k - 1, by omega⟩
    have hc : c ≠ LF := hLF c (by simp)
    have hb : ∀ c ∈ body, c ≠ LF := fun x hx => hLF x (by simp [hx])
    have hk2 : body.length < k := by simpa using hk
    simp [fgets_read, hc, ih k hb hk2]

/-- The call `fgets(line, 128, file)` on a stream that starts with a line of at most 127 bytes,
line feed included. -/
theorem fgets_line (body rest : List Char) (hLF : ∀ c ∈ body, c ≠ LF)
    (hlen : body.length + 1 ≤ 127) :
    fgets 128 (body ++ LF :: rest) = some (body ++ [LF], rest) := by
  have h := fgets_read_line 127 body rest hLF (by omega)
  cases body with
  | nil => simpa [fgets] using h
  | cons c body => simpa [fgets] using h

/-- The call `strtok` on a string that starts with a token followed by a delimiter. -/
theorem strtok_token (tok rest delim : List Char) (d : Char) (htok : tok ≠ [])
    (h : ∀ c ∈ tok, c ∉ delim) (hd : d ∈ delim) :
    strtok (tok ++ d :: rest) delim = (some tok, rest) := by
  cases tok with
  | nil => exact absurd rfl htok
  | cons a t =>
    have ha : a ∉ delim := h a (by simp)
    have h1 : ((a :: t) ++ d :: rest).dropWhile (fun c => decide (c ∈ delim))
        = (a :: t) ++ d :: rest := by
      simp [List.dropWhile_cons, ha]
    have h2 : ((a :: t) ++ d :: rest).takeWhile (fun c => decide (c ∉ delim)) = a :: t :=
      takeWhile_append_stop _ _ _ _ (fun c hc => by simpa using h c hc) (by simpa using hd)
    have h3 : ((a :: t) ++ d :: rest).dropWhile (fun c => decide (c ∉ delim)) = d :: rest :=
      dropWhile_append_stop _ _ _ _ (fun c hc => by simpa using h c hc) (by simpa using hd)
    unfold strtok
    rw [h1]
    simp only [List.cons_append] at h2 h3 ⊢
    rw [h2, h3]
    rfl

/-- The call `strtok` on a string that is one token. -/
theorem strtok_last (tok delim : List Char) (htok : tok ≠ []) (h : ∀ c ∈ tok, c ∉ delim) :
    strtok tok delim = (some tok, []) := by
  cases tok with
  | nil => exact absurd rfl htok
  | cons a t =>
    have ha : a ∉ delim := h a (by simp)
    have h1 : (a :: t).dropWhile (fun c => decide (c ∈ delim)) = a :: t := by
      simp [List.dropWhile_cons, ha]
    have h2 : (a :: t).takeWhile (fun c => decide (c ∉ delim)) = a :: t :=
      List.takeWhile_eq_self_iff.mpr (fun c hc => by simpa using h c hc)
    have h3 : (a :: t).dropWhile (fun c => decide (c ∉ delim)) = [] :=
      List.dropWhile_eq_nil_iff.mpr (fun c hc => by simpa using h c hc)
    unfold strtok
    rw [h1]
    simp only
    rw [h2, h3]
    rfl

/-- The terminator is LF or CR LF. -/
theorem ManifestEntry.terminator_cases (e : ManifestEntry) :
    e.terminator = [LF] ∨ e.terminator = [CR, LF] := by
  cases h : e.crlf <;> simp [ManifestEntry.terminator, h]

/-- A well-formed line ends with its only line feed. -/
theorem ManifestEntry.line_eq (e : ManifestEntry) (hwf : e.well_formed) :
    ∃ body, e.line = body ++ [LF] ∧ ∀ c ∈ body, c ≠ LF := by
  obtain ⟨-, -, hf, hc, -⟩ := hwf
  rcases e.terminator_cases with ht | ht
  · refine ⟨e.filename ++ COMMA :: e.checksum, by simp [ManifestEntry.line, ht], ?_⟩
    intro c hcm
    simp only [List.mem_append, List.mem_cons] at hcm
    rcases hcm with h | h | h
    · exact (hf c h).2.2
    · subst h; decide
    · exact (hc c h).2.2.2
  · refine ⟨e.filename ++ COMMA :: (e.checksum ++ [CR]), by simp [ManifestEntry.line, ht], ?_⟩
    intro c hcm
    simp only [List.mem_append, List.mem_cons, List.not_mem_nil, or_false] at hcm
    rcases hcm with h | h | h | h
    · exact (hf c h).2.2
    · subst h; decide
    · exact (hc c h).2.2.2
    · subst h; decide

/-- A well-formed line is read whole by `fgets`. -/
theorem fgets_well_formed (e : ManifestEntry) (hwf : e.well_formed) (rest : List Char) :
    fgets 128 (e.line ++ rest) = some (e.line, rest) := by
  obtain ⟨body, hb, hLF⟩ := e.line_eq hwf
  have hlen : e.line.length ≤ 127 := hwf.2.2.2.2
  rw [hb] at hlen ⊢
  rw [List.append_assoc, List.singleton_append]
  exact fgets_line body rest hLF (by simpa using hlen)

/-- A well-formed line yields its filename and its checksum. -/
theorem manifest_tokens_well_formed (e : ManifestEntry) (hwf : e.well_formed) :
    manifest_tokens e.line = some (e.filename, e.checksum) := by
  obtain ⟨hfne, hcne, hf, hc, -⟩ := hwf
  have hterm : ∀ c ∈ e.terminator, c ≠ COMMA ∧ c ≠ NUL := by
    intro c hcm
    rcases e.terminator_cases with ht | ht <;> rw [ht] at hcm <;> simp at hcm
    · subst hcm; decide
    · rcases hcm with h | h <;> subst h <;> decide
  have hnul : c_str e.line = e.line := by
    unfold c_str
    apply List.takeWhile_eq_self_iff.mpr
    intro c hcm
    simp only [ManifestEntry.line, List.mem_append, List.mem_cons] at hcm
    rcases hcm with h | h | h | h
    · simpa using (hf c h).2.1
    · subst h; decide
    · simpa using (hc c h).2.1
    · simpa using (hterm c h).2
  have h1 : strtok e.line [COMMA] = (some e.filename, e.checksum ++ e.terminator) :=
    strtok_token e.filename (e.checksum ++ e.terminator) [COMMA] COMMA hfne
      (fun c hcm => by simpa using (hf c hcm).1) (by simp)
  have h2 : strtok (e.checksum ++ e.terminator) [COMMA]
      = (some (e.checksum ++ e.terminator), []) := by
    apply strtok_last
    · simp [hcne]
    · intro c hcm
      simp only [List.mem_append] at hcm
      rcases hcm with h | h
      · simpa using (hc c h).1
      · simpa using (hterm c h).1
  have h3 : strcspn (e.checksum ++ e.terminator) [CR, LF] = e.checksum.length := by
    unfold strcspn
    have hacc : ∀ c ∈ e.checksum, decide (c ∉ [CR, LF]) = true := by
      intro c hcm
      have := hc c hcm
      simp [this.2.2.1, this.2.2.2]
    rcases e.terminator_cases with ht | ht <;> rw [ht]
    · rw [takeWhile_append_stop _ _ _ _ hacc (by simp)]
    · rw [takeWhile_append_stop _ _ _ _ hacc (by simp)]
  unfold manifest_tokens
  simp only [hnul, h1, h2, h3, List.take_left]

/-- Escaping at most doubles the length. -/
theorem escape_length_le (s : List Char) : (escape s).length ≤ 2 * s.length := by
  induction s with
  | nil => simp [escape]
  | cons c s ih =>
    by_cases hc : c = QUOTE
    · simp [escape, hc]; omega
    · simp [escape, hc]; omega

/-- The length of the expanded INSERT format. -/
theorem insert_format_length (a b : List Char) :
    (insert_format a b).length = 65 + a.length + b.length := by
  have h1 : "INSERT INTO backup_manifest (filename, checksum) VALUES ('".toList.length = 58 := by
    decide
  have h2 : "', '".toList.length = 4 := by decide
  have h3 : "');".toList.length = 3 := by decide
  simp only [insert_format, List.length_append, h1, h2, h3]
  omega

/-- The INSERT of a well-formed line fits the statement buffer: `snprintf` does not cut it. -/
theorem insert_sql_well_formed (e : ManifestEntry) (hwf : e.well_formed) :
    insert_sql e.filename e.checksum = e.insert := by
  have hlen : e.line.length ≤ 127 := hwf.2.2.2.2
  simp only [ManifestEntry.line, List.length_append, List.length_cons] at hlen
  have hf := escape_length_le e.filename
  have hc := escape_length_le e.checksum
  unfold insert_sql snprintf ManifestEntry.insert
  apply List.take_of_length_le
  rw [insert_format_length]
  omega

/-- The pairs read from a file of well-formed lines are the fields of its lines, in order. -/
theorem manifest_entries_file (es : List ManifestEntry) (hwf : ∀ e ∈ es, e.well_formed)
    (fuel : Nat) (hfuel : (manifest_file es).length ≤ fuel) :
    manifest_entries fuel (manifest_file es) = es.map (fun e => (e.filename, e.checksum)) := by
  induction es generalizing fuel with
  | nil =>
    cases fuel <;> simp [manifest_file, manifest_entries, fgets]
  | cons e es ih =>
    have hwe : e.well_formed := hwf e (by simp)
    have hrest : ∀ x ∈ es, x.well_formed := fun x hx => hwf x (by simp [hx])
    have hfile : manifest_file (e :: es) = e.line ++ manifest_file es := by
      simp [manifest_file]
    have hpos : 0 < e.line.length := by simp [ManifestEntry.line]
    rw [hfile] at hfuel ⊢
    simp only [List.length_append] at hfuel
    obtain ⟨fuel, rfl⟩ : ∃ j, fuel = j + 1 := ⟨fuel - 1, by omega⟩
    rw [manifest_entries, fgets_well_formed e hwe]
    simp only [manifest_tokens_well_formed e hwe, List.map_cons]
    rw [ih hrest fuel (by omega)]

/-- When every statement succeeds, all the pairs are inserted, in order, and the loop
returns 0 after closing the file. -/
theorem insert_entries_all_succeed (env : Env Msg Resp) (qr_null : Bool)
    (hok : ∀ (w : World Msg Resp) (qs : List Char), (query_execute env qr_null w qs).2 = 0)
    (entries : List (List Char × List Char)) (w : World Msg Resp) :
    (insert_entries env qr_null entries w).2 = 0
      ∧ attempted (insert_entries env qr_null entries w).1.trace
          = attempted w.trace ++ entries.map (fun p => insert_sql p.1 p.2)
      ∧ sent (insert_entries env qr_null entries w).1.trace
          = sent w.trace ++ entries.map (fun p => insert_sql p.1 p.2)
      ∧ fopen_calls (insert_entries env qr_null entries w).1.trace = fopen_calls w.trace
      ∧ fclose_calls (insert_entries env qr_null entries w).1.trace
          = fclose_calls w.trace + 1 := by
  induction entries generalizing w with
  | nil => simp [insert_entries, attempted, sent, fopen_calls, fclose_calls]
  | cons p entries ih =>
    obtain ⟨filename, checksum⟩ := p
    have h0 := hok w (insert_sql filename checksum)
    obtain ⟨evs, ht, ha, -, hs, -, hfo, hfc, -⟩ :=
      query_execute_trace env qr_null w (insert_sql filename checksum)
    obtain ⟨i1, i2, i3, i4, i5⟩ := ih (query_execute env qr_null w (insert_sql filename checksum)).1
    simp only [insert_entries, h0, ne_eq, not_true_eq_false, if_false]
    refine ⟨i1, ?_, ?_, ?_, ?_⟩
    · rw [i2, ht]; simp [ha]
    · rw [i3, ht]; simp [hs h0]
    · rw [i4, ht]; simp [hfo]
    · rw [i5, ht]; simp [hfc]

/-- When the INSERT of the `k`-th pair is the first to fail, the loop attempts the INSERTs of
the first `k` pairs and nothing else, puts the first `k - 1` of them on the channel (and
possibly the `k`-th), closes the file and returns 1. -/
theorem insert_entries_first_failure (env : Env Msg Resp) (qr_null : Bool)
    (entries : List (List Char × List Char)) (w : World Msg Resp) (k : Nat)
    (hk : first_failure env qr_null entries w = some k) :
    (insert_entries env qr_null entries w).2 = 1
      ∧ 1 ≤ k ∧ k ≤ entries.length
      ∧ attempted (insert_entries env qr_null entries w).1.trace
          = attempted w.trace ++ (entries.take k).map (fun p => insert_sql p.1 p.2)
      ∧ (sent (insert_entries env qr_null entries w).1.trace
            = sent w.trace ++ (entries.take (k - 1)).map (fun p => insert_sql p.1 p.2)
          ∨ sent (insert_entries env qr_null entries w).1.trace
            = sent w.trace ++ (entries.take k).map (fun p => insert_sql p.1 p.2))
      ∧ fopen_calls (insert_entries env qr_null entries w).1.trace = fopen_calls w.trace
      ∧ fclose_calls (insert_entries env qr_null entries w).1.trace
          = fclose_calls w.trace + 1 := by
  induction entries generalizing w k with
  | nil => simp [first_failure] at hk
  | cons p entries ih =>
    obtain ⟨filename, checksum⟩ := p
    obtain ⟨evs, ht, ha, hs01, hs, -, hfo, hfc, h01⟩ :=
      query_execute_trace env qr_null w (insert_sql filename checksum)
    by_cases h0 : (query_execute env qr_null w (insert_sql filename checksum)).2 = 0
    · simp only [first_failure, h0, ne_eq, not_true_eq_false, if_false] at hk
      cases hj : first_failure env qr_null entries
          (query_execute env qr_null w (insert_sql filename checksum)).1 with
      | none => simp [hj] at hk
      | some j =>
      simp only [hj, Option.map_some', Option.some.injEq] at hk
      subst hk
      obtain ⟨i1, i2, i3, i4, i5, i6, i7⟩ := ih _ j hj
      simp only [insert_entries, h0, ne_eq, not_true_eq_false, if_false]
      refine ⟨i1, by omega, by simp; omega, ?_, ?_, ?_, ?_⟩
      · rw [i4, ht]; simp [ha]
      · obtain ⟨j, rfl⟩ : ∃ i, j = i + 1 := ⟨j - 1, by omega⟩
        rcases i5 with i5 | i5
        · left; rw [i5, ht]; simp [hs h0]
        · right; rw [i5, ht]; simp [hs h0]
      · rw [i6, ht]; simp [hfo]
      · rw [i7, ht]; simp [hfc]
    · have h1 : (query_execute env qr_null w (insert_sql filename checksum)).2 = 1 := by
        rcases h01 with h | h
        · exact absurd h h0
        · exact h
      simp only [first_failure, h0, ne_eq, not_false_eq_true, if_true, Option.some.injEq] at hk
      subst hk
      simp only [insert_entries, h0, ne_eq, not_false_eq_true, if_true, emit_trace]
      refine ⟨h1, le_refl _, by simp, ?_, ?_, ?_, ?_⟩
      · rw [ht]; simp only [List.append_assoc, attempted_append, ha]; simp [attempted]
      · rcases hs01 with h | h
        · left; rw [ht]; simp only [List.append_assoc, sent_append, h]; simp [sent]
        · right; rw [ht]; simp only [List.append_assoc, sent_append, h]; simp [sent]
      · rw [ht]; simp only [List.append_assoc, fopen_calls_append, hfo]; simp [fopen_calls]
      · rw [ht]; simp only [List.append_assoc, fclose_calls_append, hfc]; simp [fclose_calls]

/-- On `env_ok` every call of `query_execute` returns 0. -/
theorem env_ok_succeeds (w : World (List Char) Unit) (qs : List Char) :
    (query_execute env_ok false w qs).2 = 0 := by
  rw [query_execute_passed env_ok w qs qs rfl rfl rfl]

/-! ## `pgmoneta_ext_create_manifest_table` -/

/-- The function when the create-table statement succeeds and the file opens. -/
theorem create_manifest_table_opened (env : Env Msg Resp) (qr_null : Bool)
    (file_path content : List Char) (w : World Msg Resp)
    (hcreate : (query_execute env qr_null w create_table_sql).2 = 0) :
    pgmoneta_ext_create_manifest_table env qr_null file_path (some content) w
      = insert_entries env qr_null (manifest_entries content.length content)
          (loop_start env qr_null file_path w) := by
  simp only [pgmoneta_ext_create_manifest_table, hcreate, ne_eq, not_true_eq_false, if_false,
    manifest_loop_eq, loop_start]

/-- The statements of the world in which the read loop starts. -/
theorem loop_start_trace (env : Env Msg Resp) (qr_null : Bool) (file_path : List Char)
    (w : World Msg Resp) (hcreate : (query_execute env qr_null w create_table_sql).2 = 0) :
    attempted (loop_start env qr_null file_path w).trace = attempted w.trace ++ [create_table_sql]
      ∧ sent (loop_start env qr_null file_path w).trace = sent w.trace ++ [create_table_sql]
      ∧ fopen_calls (loop_start env qr_null file_path w).trace = fopen_calls w.trace ++ [true]
      ∧ fclose_calls (loop_start env qr_null file_path w).trace = fclose_calls w.trace := by
  obtain ⟨evs, ht, ha, -, hs, -, hfo, hfc, -⟩ :=
    query_execute_trace env qr_null w create_table_sql
  simp only [loop_start, emit_trace, ht, attempted_append, sent_append, fopen_calls_append,
    fclose_calls_append, ha, hs hcreate, hfo, hfc]
  simp [attempted, sent, fopen_calls, fclose_calls]

/-- C1: for every manifest file made of well-formed lines (each at most 127 bytes with its
terminator, each splitting into a filename and a checksum) and every channel on which every
statement succeeds, the function returns 0 and puts exactly `1 + n` statements on the
channel: the CREATE TABLE statement, then the INSERT of each line in file order, holding the
escaped filename and the escaped checksum of the line. -/
theorem create_manifest_table_inserts_in_order (env : Env Msg Resp) (qr_null : Bool)
    (file_path : List Char) (es : List ManifestEntry) (w : World Msg Resp)
    (hwf : ∀ e ∈ es, e.well_formed)
    (hok : ∀ (v : World Msg Resp) (qs : List Char), (query_execute env qr_null v qs).2 = 0) :
    (pgmoneta_ext_create_manifest_table env qr_null file_path (some (manifest_file es)) w).2 = 0
      ∧ sent (pgmoneta_ext_create_manifest_table env qr_null file_path
            (some (manifest_file es)) w).1.trace
          = sent w.trace ++ create_table_sql :: es.map ManifestEntry.insert
      ∧ attempted (pgmoneta_ext_create_manifest_table env qr_null file_path
            (some (manifest_file es)) w).1.trace
          = attempted w.trace ++ create_table_sql :: es.map ManifestEntry.insert
      ∧ (sent (pgmoneta_ext_create_manifest_table env qr_null file_path
            (some (manifest_file es)) w).1.trace).length
          = (sent w.trace).length + (1 + es.length) := by
  have hcreate := hok w create_table_sql
  obtain ⟨l1, l2, -, -⟩ := loop_start_trace env qr_null file_path w hcreate
  have hmap : (es.map (fun e => (e.filename, e.checksum))).map (fun p => insert_sql p.1 p.2)
      = es.map ManifestEntry.insert := by
    rw [List.map_map]
    apply List.map_congr_left
    intro e he
    exact insert_sql_well_formed e (hwf e he)
  rw [create_manifest_table_opened env qr_null file_path _ w hcreate,
    manifest_entries_file es hwf _ (le_refl _)]
  obtain ⟨i1, i2, i3, -, -⟩ := insert_entries_all_succeed env qr_null hok
    (es.map (fun e => (e.filename, e.checksum))) (loop_start env qr_null file_path w)
  rw [hmap] at i2 i3
  refine ⟨i1, ?_, ?_, ?_⟩
  · rw [i3, l2]; simp
  · rw [i2, l1]; simp
  · rw [i3, l2]; simp; omega

/-- C1 on the example scenario: the file of the two lines `a.txt,abc123` and `b.txt,def'456`
gives three statements, the third with the quote of the checksum doubled. -/
theorem create_manifest_table_inserts_in_order_witness :
    manifest_file example_entries = "a.txt,abc123\nb.txt,def'456\n".toList
      ∧ (pgmoneta_ext_create_manifest_table env_ok false manifest_path
          (some (manifest_file example_entries)) World.initial).2 = 0
      ∧ sent (pgmoneta_ext_create_manifest_table env_ok false manifest_path
          (some (manifest_file example_entries)) World.initial).1.trace
        = [create_table_sql,
          "INSERT INTO backup_manifest (filename, checksum) VALUES ('a.txt', 'abc123');".toList,
          "INSERT INTO backup_manifest (filename, checksum) VALUES ('b.txt', 'def''456');".toList]
      := by
  have h := create_manifest_table_inserts_in_order env_ok false manifest_path example_entries
    World.initial (by decide) env_ok_succeeds
  refine ⟨by decide, h.1, ?_⟩
  rw [h.2.1]
  decide

/-- C2: for every manifest and every `k`, if the INSERT of the `k`-th pair read from the file
is the first INSERT to fail, the function returns 1, the statements it attempts are the
CREATE TABLE statement followed by the INSERTs of the first `k` pairs and nothing else (no
INSERT after the `k`-th, no rollback, no delete). -/
theorem create_manifest_table_first_failure (env : Env Msg Resp) (qr_null : Bool)
    (file_path content : List Char) (w : World Msg Resp) (k : Nat)
    (hcreate : (query_execute env qr_null w create_table_sql).2 = 0)
    (hk : first_failure env qr_null (manifest_entries content.length content)
      (loop_start env qr_null file_path w) = some k) :
    (pgmoneta_ext_create_manifest_table env qr_null file_path (some content) w).2 = 1
      ∧ (pgmoneta_ext_create_manifest_table env qr_null file_path (some content) w).2 ≠ 0
      ∧ 1 ≤ k ∧ k ≤ (manifest_entries content.length content).length
      ∧ attempted (pgmoneta_ext_create_manifest_table env qr_null file_path
            (some content) w).1.trace
          = attempted w.trace ++ create_table_sql ::
              ((manifest_entries content.length content).take k).map
                (fun p => insert_sql p.1 p.2) := by
  obtain ⟨l1, -, -, -⟩ := loop_start_trace env qr_null file_path w hcreate
  obtain ⟨i1, i2, i3, i4, -, -, -⟩ := insert_entries_first_failure env qr_null _ _ k hk
  rw [create_manifest_table_opened env qr_null file_path content w hcreate]
  refine ⟨i1, by rw [i1]; decide, i2, i3, ?_⟩
  rw [i4, l1]
  simp

/-- C2 at a concrete input: three lines on a channel that fails from the third statement on;
the INSERT of the second line is the first to fail. -/
theorem create_manifest_table_first_failure_witness :
    (pgmoneta_ext_create_manifest_table env_two_then_fail false manifest_path
        (some three_lines) World.initial).2 = 1
      ∧ attempted (pgmoneta_ext_create_manifest_table env_two_then_fail false manifest_path
          (some three_lines) World.initial).1.trace
        = [create_table_sql,
          "INSERT INTO backup_manifest (filename, checksum) VALUES ('a', 'b');".toList,
          "INSERT INTO backup_manifest (filename, checksum) VALUES ('c', 'd');".toList] := by
  have h := create_manifest_table_first_failure env_two_then_fail false manifest_path
    three_lines World.initial 2 (by decide) (by decide)
  refine ⟨h.1, ?_⟩
  rw [h.2.2.2.2]
  decide

/-- C6: if the create-table statement fails, the function returns that failure (1), makes no
call of `fopen`, and attempts no other statement: the create-table statement is the only one
that can have been put on the channel. -/
theorem create_manifest_table_create_fails (env : Env Msg Resp) (qr_null : Bool)
    (file_path : List Char) (file : Option (List Char)) (w : World Msg Resp)
    (hfail : (query_execute env qr_null w create_table_sql).2 ≠ 0) :
    (pgmoneta_ext_create_manifest_table env qr_null file_path file w).2
        = (query_execute env qr_null w create_table_sql).2
      ∧ (pgmoneta_ext_create_manifest_table env qr_null file_path file w).2 = 1
      ∧ attempted (pgmoneta_ext_create_manifest_table env qr_null file_path file w).1.trace
          = attempted w.trace ++ [create_table_sql]
      ∧ (sent (pgmoneta_ext_create_manifest_table env qr_null file_path file w).1.trace
            = sent w.trace
          ∨ sent (pgmoneta_ext_create_manifest_table env qr_null file_path file w).1.trace
            = sent w.trace ++ [create_table_sql])
      ∧ fopen_calls (pgmoneta_ext_create_manifest_table env qr_null file_path file w).1.trace
          = fopen_calls w.trace := by
  obtain ⟨evs, ht, ha, hs01, -, -, hfo, -, h01⟩ :=
    query_execute_trace env qr_null w create_table_sql
  have h1 : (query_execute env qr_null w create_table_sql).2 = 1 := by
    rcases h01 with h | h
    · exact absurd h hfail
    · exact h
  simp only [pgmoneta_ext_create_manifest_table, hfail, ne_eq, not_false_eq_true, if_true,
    emit_trace, ht, List.append_assoc, attempted_append, sent_append, fopen_calls_append, ha,
    hfo]
  refine ⟨trivial, h1, by simp [attempted], ?_, by simp [fopen_calls]⟩
  rcases hs01 with h | h
  · left; rw [h]; simp [sent]
  · right; rw [h]; simp [sent]

/-- C6 at a concrete input: the server rejects the create-table statement; the file, which
exists, is not opened and no INSERT is sent. -/
theorem create_manifest_table_create_fails_witness :
    (pgmoneta_ext_create_manifest_table env_rejects false manifest_path (some three_lines)
        World.initial).2 = 1
      ∧ sent (pgmoneta_ext_create_manifest_table env_rejects false manifest_path
          (some three_lines) World.initial).1.trace = [create_table_sql]
      ∧ fopen_calls (pgmoneta_ext_create_manifest_table env_rejects false manifest_path
          (some three_lines) World.initial).1.trace = [] := by
  have h := create_manifest_table_create_fails env_rejects false manifest_path
    (some three_lines) World.initial (by decide)
  exact ⟨h.2.1, by decide, h.2.2.2.2⟩

/-- C7: if the create-table statement succeeds and the file cannot be opened, the function
returns 1, the create-table statement is the only statement attempted and sent, the single
`fopen` call returned no handle and no handle is held on return. -/
theorem create_manifest_table_open_fails (env : Env Msg Resp) (qr_null : Bool)
    (file_path : List Char) (w : World Msg Resp)
    (hcreate : (query_execute env qr_null w create_table_sql).2 = 0) :
    (pgmoneta_ext_create_manifest_table env qr_null file_path none w).2 = 1
      ∧ attempted (pgmoneta_ext_create_manifest_table env qr_null file_path none w).1.trace
          = attempted w.trace ++ [create_table_sql]
      ∧ sent (pgmoneta_ext_create_manifest_table env qr_null file_path none w).1.trace
          = sent w.trace ++ [create_table_sql]
      ∧ fopen_calls (pgmoneta_ext_create_manifest_table env qr_null file_path none w).1.trace
          = fopen_calls w.trace ++ [false]
      ∧ open_handles (pgmoneta_ext_create_manifest_table env qr_null file_path none w).1.trace
          = open_handles w.trace := by
  obtain ⟨evs, ht, ha, -, hs, -, hfo, hfc, -⟩ :=
    query_execute_trace env qr_null w create_table_sql
  simp only [pgmoneta_ext_create_manifest_table, hcreate, ne_eq, not_true_eq_false, if_false,
    emit_trace, ht, List.append_assoc, attempted_append, sent_append, fopen_calls_append,
    fclose_calls_append, open_handles, ha, hs hcreate, hfo, hfc]
  simp [attempted, sent, fopen_calls, fclose_calls]

/-- C7 at a concrete input: the channel accepts the create-table statement and the file does
not exist. -/
theorem create_manifest_table_open_fails_witness :
    (pgmoneta_ext_create_manifest_table env_ok false manifest_path none World.initial).2 = 1
      ∧ sent (pgmoneta_ext_create_manifest_table env_ok false manifest_path none
          World.initial).1.trace = [create_table_sql]
      ∧ open_handles (pgmoneta_ext_create_manifest_table env_ok false manifest_path none
          World.initial).1.trace = 0 := by
  have h := create_manifest_table_open_fails env_ok false manifest_path World.initial
    (by decide)
  exact ⟨h.1, h.2.2.1, h.2.2.2.2⟩

/-- C5 at the failing input: the line `abc,` followed by a line feed has one field before
the comma and nothing after it, yet an INSERT with an empty checksum is sent for it; the
statements differ from those of the same file without that line. -/
theorem create_manifest_table_inserts_empty_checksum :
    (pgmoneta_ext_create_manifest_table env_ok false manifest_path (some missing_checksum)
        World.initial).2 = 0
      ∧ sent (pgmoneta_ext_create_manifest_table env_ok false manifest_path
          (some missing_checksum) World.initial).1.trace
        = [create_table_sql,
          "INSERT INTO backup_manifest (filename, checksum) VALUES ('abc', '');".toList,
          "INSERT INTO backup_manifest (filename, checksum) VALUES ('x', 'y');".toList]
      ∧ sent (pgmoneta_ext_create_manifest_table env_ok false manifest_path
          (some missing_checksum_absent) World.initial).1.trace
        = [create_table_sql,
          "INSERT INTO backup_manifest (filename, checksum) VALUES ('x', 'y');".toList] := by
  decide

/-- Lines on which `strtok` finds fewer than two tokens are skipped without failure: an empty
line, a line without comma, and a final `abc,` with no line terminator send nothing. -/
theorem create_manifest_table_skips_short_lines :
    (pgmoneta_ext_create_manifest_table env_ok false manifest_path (some short_lines)
        World.initial).2 = 0
      ∧ sent (pgmoneta_ext_create_manifest_table env_ok false manifest_path
          (some short_lines) World.initial).1.trace
        = [create_table_sql,
          "INSERT INTO backup_manifest (filename, checksum) VALUES ('x', 'y');".toList] := by
  decide

/-! ## The file handle -/

/-- The calls made by the inserting loop on any list of pairs and any channel: INSERTs of a
prefix of the pairs, no `fopen`, and exactly one `fclose`, which is the last call. -/
theorem insert_entries_shape (env : Env Msg Resp) (qr_null : Bool)
    (entries : List (List Char × List Char)) (w : World Msg Resp) :
    ∃ mid j, (insert_entries env qr_null entries w).1.trace = w.trace ++ (mid ++ [.fclose])
      ∧ fopen_calls mid = [] ∧ fclose_calls mid = 0 ∧ j ≤ entries.length
      ∧ attempted mid = (entries.take j).map (fun p => insert_sql p.1 p.2) := by
  induction entries generalizing w with
  | nil => exact ⟨[], 0, by simp [insert_entries], rfl, rfl, le_refl _, rfl⟩
  | cons p entries ih =>
    obtain ⟨filename, checksum⟩ := p
    obtain ⟨evs, ht, ha, -, -, -, hfo, hfc, -⟩ :=
      query_execute_trace env qr_null w (insert_sql filename checksum)
    by_cases h0 : (query_execute env qr_null w (insert_sql filename checksum)).2 = 0
    · obtain ⟨mid, j, i1, i2, i3, i4, i5⟩ :=
        ih (query_execute env qr_null w (insert_sql filename checksum)).1
      refine ⟨evs ++ mid, j + 1, ?_, ?_, ?_, ?_, ?_⟩
      · simp only [insert_entries, h0, ne_eq, not_true_eq_false, if_false, i1, ht,
          List.append_assoc]
      · simp [hfo, i2]
      · simp [hfc, i3]
      · simp; omega
      · simp [ha, i5]
    · refine ⟨evs ++ [.log "Failed to insert into backup_manifest: %s, %s"
          [filename, checksum]], 1, ?_, ?_, ?_, ?_, ?_⟩
      · simp only [insert_entries, h0, ne_eq, not_false_eq_true, if_true, emit_trace, ht,
          List.append_assoc]
      · simp only [fopen_calls_append, hfo]; simp [fopen_calls]
      · simp only [fclose_calls_append, hfc]; simp [fclose_calls]
      · simp
      · simp only [attempted_append, ha]; simp [attempted]

/-- C11: on every path of `pgmoneta_ext_create_manifest_table` the calls that follow the
create-table statement are: nothing but a log entry (create-table failure); one `fopen` that
gives no handle, then a log entry (file-open failure); or one `fopen` that gives a handle,
made first, then the calls of the read loop, which hold no `fopen` and no `fclose`, then one
`fclose`, made last (failed INSERT or end of file). On every path the successful opens equal
the closes and the number of open handles on return is what it was on entry. -/
theorem create_manifest_table_handles (env : Env Msg Resp) (qr_null : Bool)
    (file_path : List Char) (file : Option (List Char)) (w : World Msg Resp) :
    ∃ evs, (pgmoneta_ext_create_manifest_table env qr_null file_path file w).1.trace
        = (query_execute env qr_null w create_table_sql).1.trace ++ evs
      ∧ (((query_execute env qr_null w create_table_sql).2 ≠ 0
            ∧ evs = [.log "Failed to create backup_manifest table" []])
          ∨ ((query_execute env qr_null w create_table_sql).2 = 0 ∧ file = none
            ∧ evs = [.fopen file_path false,
                .log "Failed to open backup.manifest file: %s" [file_path]])
          ∨ ((query_execute env qr_null w create_table_sql).2 = 0 ∧ file.isSome = true
            ∧ ∃ mid, evs = .fopen file_path true :: (mid ++ [.fclose])
              ∧ fopen_calls mid = [] ∧ fclose_calls mid = 0))
      ∧ (fopen_calls evs).count true = fclose_calls evs
      ∧ (fopen_calls evs).count true ≤ 1
      ∧ open_handles (pgmoneta_ext_create_manifest_table env qr_null file_path file w).1.trace
          = open_handles w.trace := by
  obtain ⟨qevs, ht, -, -, -, -, hfo, hfc, -⟩ :=
    query_execute_trace env qr_null w create_table_sql
  have key : ∀ evs : List (Event Msg),
      (fopen_calls evs).count true = fclose_calls evs →
      open_handles ((query_execute env qr_null w create_table_sql).1.trace ++ evs)
        = open_handles w.trace := by
    intro evs h
    simp only [open_handles, ht, fopen_calls_append, fclose_calls_append, hfo, hfc,
      List.count_append, List.append_nil, Nat.add_zero, h]
    push_cast
    omega
  by_cases h0 : (query_execute env qr_null w create_table_sql).2 = 0
  · cases file with
    | none =>
      have hev : (pgmoneta_ext_create_manifest_table env qr_null file_path none w).1.trace
          = (query_execute env qr_null w create_table_sql).1.trace
            ++ [.fopen file_path false,
              .log "Failed to open backup.manifest file: %s" [file_path]] := by
        simp [pgmoneta_ext_create_manifest_table, h0]
      have hc : (fopen_calls ([.fopen file_path false,
          .log "Failed to open backup.manifest file: %s" [file_path]] : List (Event Msg))).count
            true = fclose_calls ([.fopen file_path false,
          .log "Failed to open backup.manifest file: %s" [file_path]] : List (Event Msg)) := by
        simp [fopen_calls, fclose_calls]
      refine ⟨_, hev, Or.inr (Or.inl ⟨h0, rfl, rfl⟩), hc, ?_, ?_⟩
      · simp [fopen_calls]
      · rw [hev]; exact key _ hc
    | some content =>
      obtain ⟨mid, j, i1, i2, i3, -, -⟩ := insert_entries_shape env qr_null
        (manifest_entries content.length content) (loop_start env qr_null file_path w)
      have hev : (pgmoneta_ext_create_manifest_table env qr_null file_path (some content)
          w).1.trace = (query_execute env qr_null w create_table_sql).1.trace
            ++ (.fopen file_path true :: (mid ++ [.fclose])) := by
        rw [create_manifest_table_opened env qr_null file_path content w h0, i1]
        simp [loop_start]
      have hc : (fopen_calls (.fopen file_path true :: (mid ++ [.fclose]))).count true
          = fclose_calls (.fopen file_path true :: (mid ++ [.fclose])) := by
        have e1 : fopen_calls (.fopen file_path true :: (mid ++ [.fclose]))
            = true :: fopen_calls (mid ++ [.fclose]) := by simp [fopen_calls]
        have e2 : fclose_calls (.fopen file_path true :: (mid ++ [.fclose]))
            = fclose_calls (mid ++ [.fclose]) := by simp [fclose_calls]
        rw [e1, e2, fopen_calls_append, fclose_calls_append, i2, i3]
        simp [fopen_calls, fclose_calls]
      refine ⟨_, hev, Or.inr (Or.inr ⟨h0, rfl, mid, rfl, i2, i3⟩), hc, ?_, ?_⟩
      · rw [hc]
        have e2 : fclose_calls (.fopen file_path true :: (mid ++ [.fclose]))
            = fclose_calls (mid ++ [.fclose]) := by simp [fclose_calls]
        rw [e2, fclose_calls_append, i3]
        simp [fclose_calls]
      · rw [hev]; exact key _ hc
  · have hev : (pgmoneta_ext_create_manifest_table env qr_null file_path file w).1.trace
        = (query_execute env qr_null w create_table_sql).1.trace
          ++ [.log "Failed to create backup_manifest table" []] := by
      simp [pgmoneta_ext_create_manifest_table, h0]
    have hc : (fopen_calls ([.log "Failed to create backup_manifest table" []]
        : List (Event Msg))).count true
        = fclose_calls ([.log "Failed to create backup_manifest table" []]
          : List (Event Msg)) := by
      simp [fopen_calls, fclose_calls]
    refine ⟨_, hev, Or.inl ⟨h0, rfl⟩, hc, ?_, ?_⟩
    · simp [fopen_calls]
    · rw [hev]; exact key _ hc

/-! ## `strtok` and the runs of non-comma bytes -/

/-- The first field ends at the first comma; the other fields are those of what follows it. -/
theorem split_fields_eq (s : List Char) :
    split_fields s = s.takeWhile (fun c => decide (c ≠ COMMA)) ::
      (match s.dropWhile (fun c => decide (c ≠ COMMA)) with
        | [] => []
        | _ :: r => split_fields r) := by
  induction s with
  | nil => simp [split_fields]
  | cons c s ih =>
    by_cases hc : c = COMMA
    · simp [split_fields, hc]
    · rw [split_fields, if_neg hc, ih]
      simp [hc]

/-- Leading commas do not change the runs. -/
theorem comma_runs_dropWhile (s : List Char) :
    comma_runs (s.dropWhile (fun c => decide (c = COMMA))) = comma_runs s := by
  induction s with
  | nil => rfl
  | cons c s ih =>
    by_cases hc : c = COMMA
    · rw [List.dropWhile_cons_of_pos (by simpa using hc), ih]
      simp [comma_runs, split_fields, hc]
    · rw [List.dropWhile_cons_of_neg (by simpa using hc)]

/-- The runs of a string that starts with a byte other than a comma. -/
theorem comma_runs_cons (c : Char) (s : List Char) (hc : c ≠ COMMA) :
    comma_runs (c :: s) = (c :: s).takeWhile (fun x => decide (x ≠ COMMA)) ::
      comma_runs (((c :: s).dropWhile (fun x => decide (x ≠ COMMA))).drop 1) := by
  unfold comma_runs
  rw [split_fields_eq (c :: s)]
  have hne : ((c :: s).takeWhile (fun x => decide (x ≠ COMMA))).isEmpty = false := by
    simp [List.takeWhile_cons, hc]
  rw [List.filter_cons_of_pos (by simp only [hne]; rfl)]
  cases hd : (c :: s).dropWhile (fun x => decide (x ≠ COMMA)) with
  | nil => simp [split_fields]
  | cons x r => simp

/-- One call of `strtok` with the delimiter `,` returns the first run of non-comma bytes, if
any, and leaves a saved pointer whose runs are the runs that follow. -/
theorem strtok_comma_runs (s : List Char) :
    (strtok s [COMMA]).1 = (comma_runs s).head?
      ∧ comma_runs (strtok s [COMMA]).2 = (comma_runs s).tail := by
  have hp : (fun c => decide (c ∈ [COMMA])) = (fun c => decide (c = COMMA)) := by
    funext c; simp
  have hq : (fun c => decide (c ∉ [COMMA])) = (fun c => decide (c ≠ COMMA)) := by
    funext c; simp
  unfold strtok
  rw [hp, hq, ← comma_runs_dropWhile s]
  cases hd : s.dropWhile (fun c => decide (c = COMMA)) with
  | nil => simp [comma_runs, split_fields]
  | cons c s1 =>
    have hc : c ≠ COMMA := by
      have := List.head_dropWhile_not (fun c => decide (c = COMMA)) s (by simp [hd])
      simpa [hd] using this
    rw [comma_runs_cons c s1 hc]
    simp

/-- Cutting the buffer at `strcspn(checksum, "\r\n")` cuts the token at its first CR or LF. -/
theorem take_strcspn (tok : List Char) : tok.take (strcspn tok [CR, LF]) = cut_eol tok := by
  have hq : (fun c => decide (c ∉ [CR, LF])) = (fun c => decide (c ≠ CR ∧ c ≠ LF)) := by
    funext c; simp
  unfold strcspn cut_eol
  rw [hq]
  have h := List.take_left (tok.takeWhile (fun c => decide (c ≠ CR ∧ c ≠ LF)))
    (tok.dropWhile (fun c => decide (c ≠ CR ∧ c ≠ LF)))
  rwa [List.takeWhile_append_dropWhile] at h

/-- The pair used by the loop body, in terms of the runs of non-comma bytes of the C string
in the line buffer: the first run and the second run cut at its first CR or LF; the line is
skipped when there are fewer than two runs, and runs after the second are not looked at. -/
theorem manifest_tokens_comma_runs (line : List Char) :
    manifest_tokens line =
      match comma_runs (c_str line) with
      | filename :: checksum :: _ => some (filename, cut_eol checksum)
      | _ => none := by
  obtain ⟨h1, h2⟩ := strtok_comma_runs (c_str line)
  obtain ⟨h3, -⟩ := strtok_comma_runs (strtok (c_str line) [COMMA]).2
  unfold manifest_tokens
  simp only [h1, h3, h2, take_strcspn]
  cases hr : comma_runs (c_str line) with
  | nil => simp
  | cons f rs =>
    cases rs with
    | nil => simp
    | cons c rs2 => simp

/-! ## The fields of the pairs that are inserted -/

/-- The bytes of a field are bytes of the string, and none is a comma. -/
theorem split_fields_mem (s r : List Char) (hr : r ∈ split_fields s) (x : Char) (hx : x ∈ r) :
    x ∈ s ∧ x ≠ COMMA := by
  induction s generalizing r with
  | nil => simp [split_fields] at hr; subst hr; simp at hx
  | cons c s ih =>
    by_cases hc : c = COMMA
    · simp only [split_fields, hc, if_true, List.mem_cons] at hr
      rcases hr with h | h
      · subst h; simp at hx
      · have := ih r h hx
        exact ⟨List.mem_cons_of_mem _ this.1, this.2⟩
    · rw [split_fields, if_neg hc] at hr
      cases hs : split_fields s with
      | nil =>
        simp only [hs, List.mem_singleton] at hr
        subst hr
        simp only [List.mem_singleton] at hx
        subst hx
        exact ⟨by simp, hc⟩
      | cons r0 rs =>
        simp only [hs, List.mem_cons] at hr
        rcases hr with h | h
        · subst h
          simp only [List.mem_cons] at hx
          rcases hx with h2 | h2
          · subst h2; exact ⟨by simp, hc⟩
          · have := ih r0 (by simp [hs]) h2
            exact ⟨List.mem_cons_of_mem _ this.1, this.2⟩
        · have := ih r (by simp [hs, h]) hx
          exact ⟨List.mem_cons_of_mem _ this.1, this.2⟩

/-- A run is non-empty, made of bytes of the string, and holds no comma. -/
theorem comma_runs_mem (s r : List Char) (hr : r ∈ comma_runs s) :
    r ≠ [] ∧ ∀ x ∈ r, x ∈ s ∧ x ≠ COMMA := by
  simp only [comma_runs, List.mem_filter] at hr
  refine ⟨?_, fun x hx => split_fields_mem s r hr.1 x hx⟩
  intro h
  subst h
  simp at hr

/-- When a string has two runs, its first run is followed by a comma. -/
theorem comma_runs_first_followed (s f c : List Char) (rest : List (List Char))
    (h : comma_runs s = f :: c :: rest) : ∃ a b, s = a ++ (f ++ COMMA :: b) := by
  rw [← comma_runs_dropWhile s] at h
  have hs : s = s.takeWhile (fun c => decide (c = COMMA))
      ++ s.dropWhile (fun c => decide (c = COMMA)) := by simp
  cases hd : s.dropWhile (fun c => decide (c = COMMA)) with
  | nil => rw [hd] at h; simp [comma_runs, split_fields] at h
  | cons c0 s1 =>
    have hc0 : c0 ≠ COMMA := by
      have := List.head_dropWhile_not (fun c => decide (c = COMMA)) s (by simp [hd])
      simpa [hd] using this
    rw [hd, comma_runs_cons c0 s1 hc0] at h
    simp only [List.cons.injEq] at h
    obtain ⟨hf, hrest⟩ := h
    have hsplit : c0 :: s1 = f ++ (c0 :: s1).dropWhile (fun x => decide (x ≠ COMMA)) := by
      rw [← hf]; simp
    cases hdd : (c0 :: s1).dropWhile (fun x => decide (x ≠ COMMA)) with
    | nil => rw [hdd] at hrest; simp [comma_runs, split_fields] at hrest
    | cons x b =>
      have hx : x = COMMA := by
        have := List.head_dropWhile_not (fun x => decide (x ≠ COMMA)) (c0 :: s1)
          (by rw [hdd]; simp)
        simp only [hdd, List.head_cons] at this
        simpa using this
      refine ⟨s.takeWhile (fun c => decide (c = COMMA)), b, ?_⟩
      rw [hdd, hx] at hsplit
      rw [← hsplit, ← hd]
      exact hs

/-- In what `fgets` stores, a line feed can only be the last byte. -/
theorem fgets_read_LF_last (k : Nat) (s a b : List Char)
    (h : (fgets_read k s).1 = a ++ LF :: b) : b = [] := by
  induction k generalizing s a with
  | zero => simp [fgets_read] at h
  | succ k ih =>
    cases s with
    | nil => simp [fgets_read] at h
    | cons c s =>
      by_cases hc : c = LF
      · simp only [fgets_read, hc, if_true] at h
        cases a with
        | nil => simpa using h.symm
        | cons x a => simp at h
      · simp only [fgets_read, hc, if_false] at h
        cases a with
        | nil =>
          simp only [List.nil_append, List.cons.injEq] at h
          exact absurd h.1 hc
        | cons x a =>
          simp only [List.cons_append, List.cons.injEq] at h
          exact ih s a h.2

/-- The bytes kept by the cut are bytes of the token, none of them CR or LF. -/
theorem cut_eol_mem (tok : List Char) (x : Char) (hx : x ∈ cut_eol tok) :
    x ∈ tok ∧ x ≠ CR ∧ x ≠ LF := by
  unfold cut_eol at hx
  refine ⟨(List.takeWhile_sublist _).subset hx, ?_⟩
  have := List.mem_takeWhile_imp hx
  simpa using this

/-- The bytes of the C string in a buffer are bytes of the buffer, none of them NUL. -/
theorem c_str_mem (buf : List Char) (x : Char) (hx : x ∈ c_str buf) : x ∈ buf ∧ x ≠ NUL := by
  unfold c_str at hx
  refine ⟨(List.takeWhile_sublist _).subset hx, ?_⟩
  have := List.mem_takeWhile_imp hx
  simpa using this

/-- The fields of the pair read from a line returned by `fgets`. -/
theorem manifest_tokens_fields (stream line rest filename checksum : List Char)
    (hf : fgets 128 stream = some (line, rest))
    (ht : manifest_tokens line = some (filename, checksum)) :
    fields_invariant filename checksum := by
  rw [manifest_tokens_comma_runs] at ht
  cases hr : comma_runs (c_str line) with
  | nil => simp [hr] at ht
  | cons f rs =>
    cases rs with
    | nil => simp [hr] at ht
    | cons c rs2 =>
      simp only [hr, Option.some.injEq, Prod.mk.injEq] at ht
      obtain ⟨rfl, rfl⟩ := ht
      obtain ⟨hfne, hfm⟩ := comma_runs_mem (c_str line) f (by simp [hr])
      obtain ⟨-, hcm⟩ := comma_runs_mem (c_str line) c (by simp [hr])
      have hline : (fgets_read 127 stream).1 = line := by
        cases stream with
        | nil => simp [fgets] at hf
        | cons x s =>
          simp only [fgets, Option.some.injEq] at hf
          change fgets_read 127 (x :: s) = (line, rest) at hf
          rw [hf]
      refine ⟨hfne, ?_, ?_⟩
      · intro x hx
        have h1 := hfm x hx
        have h2 := c_str_mem line x h1.1
        refine ⟨h1.2, ?_, h2.2⟩
        intro hxl
        subst hxl
        obtain ⟨a, b, hab⟩ := comma_runs_first_followed (c_str line) f c rs2 hr
        obtain ⟨f1, f2, hf12⟩ := List.append_of_mem hx
        have hpre : line = c_str line ++ line.dropWhile (fun c => decide (c ≠ NUL)) := by
          unfold c_str; simp
        rw [hab, hf12] at hpre
        have hform : line = (a ++ f1) ++ LF :: (f2 ++ COMMA :: b
            ++ line.dropWhile (fun c => decide (c ≠ NUL))) := by
          conv_lhs => rw [hpre]
          simp
        have := fgets_read_LF_last 127 stream _ _ (hline.trans hform)
        simp at this
      · intro x hx
        have h0 := cut_eol_mem c x hx
        have h1 := hcm x h0.1
        have h2 := c_str_mem line x h1.1
        exact ⟨h1.2, h0.2.1, h0.2.2, h2.2⟩

/-- The fields of every pair read from a stream. -/
theorem manifest_entries_fields (fuel : Nat) (stream : List Char) (p : List Char × List Char)
    (hp : p ∈ manifest_entries fuel stream) : fields_invariant p.1 p.2 := by
  induction fuel generalizing stream with
  | zero => simp [manifest_entries] at hp
  | succ fuel ih =>
    rw [manifest_entries] at hp
    cases hf : fgets 128 stream with
    | none => simp [hf] at hp
    | some q =>
      obtain ⟨line, rest⟩ := q
      simp only [hf] at hp
      cases ht : manifest_tokens line with
      | none =>
        simp only [ht] at hp
        exact ih rest hp
      | some e =>
        simp only [ht, List.mem_cons] at hp
        rcases hp with h | h
        · subst h
          exact manifest_tokens_fields stream line rest p.1 p.2 hf ht
        · exact ih rest h

/-- The statements attempted by `pgmoneta_ext_create_manifest_table` on any input: the
create-table statement, then the INSERTs of a prefix of the pairs read from the file. -/
theorem create_manifest_table_attempted (env : Env Msg Resp) (qr_null : Bool)
    (file_path : List Char) (file : Option (List Char)) (w : World Msg Resp) :
    ∃ j, j ≤ (file_entries file).length
      ∧ attempted (pgmoneta_ext_create_manifest_table env qr_null file_path file w).1.trace
        = attempted w.trace ++ create_table_sql ::
            ((file_entries file).take j).map (fun p => insert_sql p.1 p.2) := by
  obtain ⟨qevs, ht, ha, -, -, -, -, -, -⟩ := query_execute_trace env qr_null w create_table_sql
  by_cases h0 : (query_execute env qr_null w create_table_sql).2 = 0
  · cases file with
    | none =>
      refine ⟨0, Nat.zero_le _, ?_⟩
      simp only [pgmoneta_ext_create_manifest_table, h0, ne_eq, not_true_eq_false, if_false,
        emit_trace, ht, List.append_assoc, attempted_append, ha]
      simp [attempted]
    | some content =>
      obtain ⟨mid, j, i1, -, -, i4, i5⟩ := insert_entries_shape env qr_null
        (manifest_entries content.length content) (loop_start env qr_null file_path w)
      refine ⟨j, i4, ?_⟩
      rw [create_manifest_table_opened env qr_null file_path content w h0, i1]
      simp only [loop_start, emit_trace, ht, List.append_assoc, attempted_append, ha, i5,
        file_entries]
      simp [attempted]
  · refine ⟨0, Nat.zero_le _, ?_⟩
    simp only [pgmoneta_ext_create_manifest_table, h0, ne_eq, not_false_eq_true, if_true,
      emit_trace, ht, List.append_assoc, attempted_append, ha]
    simp [attempted]

/-- C12 as stated fails: the line `a<CR>b,c` yields an INSERT whose filename holds a carriage
return. -/
theorem inserted_filename_holds_cr :
    manifest_entries cr_in_filename.length cr_in_filename
        = [([Char.ofNat 97, CR, Char.ofNat 98], [Char.ofNat 99])]
      ∧ sent (pgmoneta_ext_create_manifest_table env_ok false manifest_path
          (some cr_in_filename) World.initial).1.trace
        = [create_table_sql, insert_format [Char.ofNat 97, CR, Char.ofNat 98] [Char.ofNat 99]]
      ∧ ¬ (∀ p ∈ manifest_entries cr_in_filename.length cr_in_filename,
          p.1 ≠ [] ∧ p.2 ≠ [] ∧ (∀ x ∈ p.1, x ≠ CR ∧ x ≠ LF) ∧ (∀ x ∈ p.2, x ≠ CR ∧ x ≠ LF)) := by
  decide

/-- C12, amended: every statement the function attempts after the create-table statement is
the INSERT of a pair whose filename is non-empty and holds no comma, no line feed and no NUL,
and whose checksum holds no comma, no carriage return, no line feed and no NUL. -/
theorem create_manifest_table_inserted_fields (env : Env Msg Resp) (qr_null : Bool)
    (file_path : List Char) (file : Option (List Char)) (w : World Msg Resp) (qs : List Char)
    (h : qs ∈ attempted
      (pgmoneta_ext_create_manifest_table env qr_null file_path file w).1.trace) :
    qs ∈ attempted w.trace ∨ qs = create_table_sql
      ∨ ∃ filename checksum, qs = insert_sql filename checksum
          ∧ fields_invariant filename checksum := by
  obtain ⟨j, -, hj⟩ := create_manifest_table_attempted env qr_null file_path file w
  rw [hj] at h
  simp only [List.mem_append, List.mem_cons, List.mem_map] at h
  rcases h with h | h | ⟨p, hp, rfl⟩
  · exact Or.inl h
  · exact Or.inr (Or.inl h)
  · refine Or.inr (Or.inr ⟨p.1, p.2, rfl, ?_⟩)
    have hmem : p ∈ file_entries file := List.mem_of_mem_take hp
    cases file with
    | none => simp [file_entries] at hmem
    | some content => exact manifest_entries_fields _ _ p hmem

/-- C12, amended, at a concrete input: the INSERT sent for the line `a<CR>b,c`. -/
theorem create_manifest_table_inserted_fields_witness :
    insert_format [Char.ofNat 97, CR, Char.ofNat 98] [Char.ofNat 99]
        ∈ attempted (World.initial : World (List Char) Unit).trace
      ∨ insert_format [Char.ofNat 97, CR, Char.ofNat 98] [Char.ofNat 99] = create_table_sql
      ∨ ∃ filename checksum,
          insert_format [Char.ofNat 97, CR, Char.ofNat 98] [Char.ofNat 99]
            = insert_sql filename checksum
          ∧ fields_invariant filename checksum :=
  create_manifest_table_inserted_fields env_ok false manifest_path (some cr_in_filename)
    World.initial _ (by decide)

/-! ## Files made of lines of text -/

/-- A line of text is a body without line feed followed by a line feed. -/
theorem text_line_body (l : List Char) (h : text_line l) :
    ∃ body, l = body ++ [LF] ∧ (∀ c ∈ body, c ≠ LF) ∧ body.length + 1 ≤ 127 := by
  obtain ⟨hlen, hlast, hbody⟩ := h
  have hl : l = l.dropLast ++ [LF] := by
    have := List.dropLast_append_getLast? LF (by simpa using hlast)
    exact this.symm
  refine ⟨l.dropLast, hl, hbody, ?_⟩
  have := congrArg List.length hl
  simp only [List.length_append, List.length_singleton] at this
  omega

/-- A line of text at the head of a stream is read whole by `fgets`. -/
theorem fgets_text_line (l rest : List Char) (h : text_line l) :
    fgets 128 (l ++ rest) = some (l, rest) := by
  obtain ⟨body, hl, hb, hlen⟩ := text_line_body l h
  rw [hl, List.append_assoc, List.singleton_append]
  exact fgets_line body rest hb hlen

/-- The pairs read from a file made of lines of text are those of its lines, one line at a
time. -/
theorem manifest_entries_lines (ls : List (List Char)) (h : ∀ l ∈ ls, text_line l)
    (fuel : Nat) (hfuel : ls.flatten.length ≤ fuel) :
    manifest_entries fuel ls.flatten = ls.filterMap manifest_tokens := by
  induction ls generalizing fuel with
  | nil => cases fuel <;> simp [manifest_entries, fgets]
  | cons l ls ih =>
    have hl : text_line l := h l (by simp)
    have hrest : ∀ x ∈ ls, text_line x := fun x hx => h x (by simp [hx])
    obtain ⟨body, hb, -, -⟩ := text_line_body l hl
    have hpos : 0 < l.length := by rw [hb]; simp
    simp only [List.flatten_cons, List.length_append] at hfuel ⊢
    obtain ⟨fuel, rfl⟩ : ∃ j, fuel = j + 1 := ⟨fuel - 1, by omega⟩
    rw [manifest_entries, fgets_text_line l _ hl]
    cases ht : manifest_tokens l with
    | none =>
      rw [List.filterMap_cons_none ht]
      simp only [ht]
      exact ih hrest fuel (by omega)
    | some e =>
      rw [List.filterMap_cons_some ht]
      simp only [ht]
      rw [ih hrest fuel (by omega)]

/-- The INSERT of a line in terms of the pair read from it. -/
theorem line_insert_eq (l : List Char) :
    line_insert l = (manifest_tokens l).map (fun p => insert_sql p.1 p.2) := by
  rw [manifest_tokens_comma_runs]
  unfold line_insert
  cases comma_runs (c_str l) with
  | nil => rfl
  | cons f rs =>
    cases rs with
    | nil => rfl
    | cons c rs2 => rfl

/-- C13 as stated fails: the line `a,b,c` is not skipped; the INSERT of its first two fields
is sent and the function returns 0. -/
theorem three_fields_line_inserted :
    (pgmoneta_ext_create_manifest_table env_ok false manifest_path (some three_fields)
        World.initial).2 = 0
      ∧ sent (pgmoneta_ext_create_manifest_table env_ok false manifest_path
          (some three_fields) World.initial).1.trace
        = [create_table_sql,
          "INSERT INTO backup_manifest (filename, checksum) VALUES ('a', 'b');".toList]
      ∧ sent (pgmoneta_ext_create_manifest_table env_ok false manifest_path
          (some three_fields) World.initial).1.trace ≠ [create_table_sql] := by
  decide

/-- C13, amended: for every file made of lines of text and every channel on which every
statement succeeds, the function returns 0 and the statements sent are the create-table
statement followed, line by line, by nothing for a line with fewer than two runs of non-comma
bytes and by the INSERT of the first two runs for a line with two runs or more: a line with
three or more fields is not skipped, its fields after the second are ignored. -/
theorem create_manifest_table_first_two_fields (env : Env Msg Resp) (qr_null : Bool)
    (file_path : List Char) (ls : List (List Char)) (w : World Msg Resp)
    (hls : ∀ l ∈ ls, text_line l)
    (hok : ∀ (v : World Msg Resp) (qs : List Char), (query_execute env qr_null v qs).2 = 0) :
    (pgmoneta_ext_create_manifest_table env qr_null file_path (some ls.flatten) w).2 = 0
      ∧ sent (pgmoneta_ext_create_manifest_table env qr_null file_path
            (some ls.flatten) w).1.trace
          = sent w.trace ++ create_table_sql :: ls.filterMap line_insert := by
  have hcreate := hok w create_table_sql
  obtain ⟨-, l2, -, -⟩ := loop_start_trace env qr_null file_path w hcreate
  rw [create_manifest_table_opened env qr_null file_path _ w hcreate,
    manifest_entries_lines ls hls _ (le_refl _)]
  obtain ⟨i1, -, i3, -, -⟩ := insert_entries_all_succeed env qr_null hok
    (ls.filterMap manifest_tokens) (loop_start env qr_null file_path w)
  refine ⟨i1, ?_⟩
  rw [i3, l2, List.map_filterMap]
  have : (fun l => (manifest_tokens l).map (fun p => insert_sql p.1 p.2)) = line_insert := by
    funext l; rw [line_insert_eq]
  simp [this]

/-- C13, amended, at a concrete input: lines with three fields, one field and two fields. -/
theorem create_manifest_table_first_two_fields_witness :
    (pgmoneta_ext_create_manifest_table env_ok false manifest_path
        (some mixed_lines.flatten) World.initial).2 = 0
      ∧ sent (pgmoneta_ext_create_manifest_table env_ok false manifest_path
          (some mixed_lines.flatten) World.initial).1.trace
        = [create_table_sql,
          "INSERT INTO backup_manifest (filename, checksum) VALUES ('a', 'b');".toList,
          "INSERT INTO backup_manifest (filename, checksum) VALUES ('p', 'q');".toList] := by
  have h := create_manifest_table_first_two_fields env_ok false manifest_path mixed_lines
    World.initial (by decide) env_ok_succeeds
  refine ⟨h.1, ?_⟩
  rw [h.2]
  decide

/-! ## The catalog operations that take a path -/

/-- The length of the expanded `get_file` format. -/
theorem get_file_format_length (file_path : List Char) :
    (get_file_format file_path).length = file_path.length + 33 := by
  have h1 : "SELECT pgmoneta_ext_get_file('".toList.length = 30 := by decide
  have h2 : "');".toList.length = 3 := by decide
  simp only [get_file_format, List.length_append, h1, h2]
  omega

/-- The length of the expanded `get_files` format. -/
theorem get_files_format_length (file_path : List Char) :
    (get_files_format file_path).length = file_path.length + 34 := by
  have h1 : "SELECT pgmoneta_ext_get_files('".toList.length = 31 := by decide
  have h2 : "');".toList.length = 3 := by decide
  simp only [get_files_format, List.length_append, h1, h2]
  omega

set_option maxRecDepth 100000 in
/-- C14 as stated fails: with `MAX_QUERY_LENGTH` 1024 and a path of 1000 bytes the statement
has 1033 bytes and does not fit; `pgmoneta_ext_get_file` sends its first 1023 bytes, a
statement cut inside the path, and returns 0. -/
theorem get_file_sends_truncated :
    (get_file_format long_path).length = 1033
      ∧ (pgmoneta_ext_get_file env_ok false 1024 long_path World.initial).2 = 0
      ∧ sent (pgmoneta_ext_get_file env_ok false 1024 long_path World.initial).1.trace
          = ["SELECT pgmoneta_ext_get_file('".toList ++ List.replicate 993 (Char.ofNat 97)] := by
  decide

/-- C14, amended: the two catalog operations that take a path bound the assembled statement
by cutting it: for every path and every `MAX_QUERY_LENGTH`, `pgmoneta_ext_get_file` and
`pgmoneta_ext_get_files` hand to `query_execute` the first `MAX_QUERY_LENGTH - 1` bytes of
the expanded format, whose length is the smaller of `MAX_QUERY_LENGTH - 1` and the length of
the complete statement, and return what `query_execute` returns; no length test is made. -/
theorem get_file_cuts_statement (env : Env Msg Resp) (qr_null : Bool) (MAX_QUERY_LENGTH : Nat)
    (file_path : List Char) (w : World Msg Resp) :
    pgmoneta_ext_get_file env qr_null MAX_QUERY_LENGTH file_path w
        = query_execute env qr_null w ((get_file_format file_path).take (MAX_QUERY_LENGTH - 1))
      ∧ ((get_file_format file_path).take (MAX_QUERY_LENGTH - 1)).length
          = min (MAX_QUERY_LENGTH - 1) (file_path.length + 33)
      ∧ attempted (pgmoneta_ext_get_file env qr_null MAX_QUERY_LENGTH file_path w).1.trace
          = attempted w.trace ++ [(get_file_format file_path).take (MAX_QUERY_LENGTH - 1)]
      ∧ pgmoneta_ext_get_files env qr_null MAX_QUERY_LENGTH file_path w
        = query_execute env qr_null w ((get_files_format file_path).take (MAX_QUERY_LENGTH - 1))
      ∧ ((get_files_format file_path).take (MAX_QUERY_LENGTH - 1)).length
          = min (MAX_QUERY_LENGTH - 1) (file_path.length + 34)
      ∧ attempted (pgmoneta_ext_get_files env qr_null MAX_QUERY_LENGTH file_path w).1.trace
          = attempted w.trace ++ [(get_files_format file_path).take (MAX_QUERY_LENGTH - 1)] := by
  obtain ⟨e1, t1, a1, -⟩ := query_execute_trace env qr_null w
    ((get_file_format file_path).take (MAX_QUERY_LENGTH - 1))
  obtain ⟨e2, t2, a2, -⟩ := query_execute_trace env qr_null w
    ((get_files_format file_path).take (MAX_QUERY_LENGTH - 1))
  refine ⟨rfl, ?_, ?_, rfl, ?_, ?_⟩
  · rw [List.length_take, get_file_format_length]
  · simp only [pgmoneta_ext_get_file, snprintf, t1, attempted_append, a1]
  · rw [List.length_take, get_files_format_length]
  · simp only [pgmoneta_ext_get_files, snprintf, t2, attempted_append, a2]

/-- C15: for every path whose assembled statement fits in `MAX_QUERY_LENGTH` bytes with its
terminator, `pgmoneta_ext_get_file` is one call of `query_execute` on the statement
`SELECT pgmoneta_ext_get_file('` followed by the bytes of the path, unchanged, followed by
`');`: that one statement is attempted and the result and the state are those of
`query_execute`. The same holds of `pgmoneta_ext_get_files`. -/
theorem get_file_statement (env : Env Msg Resp) (qr_null : Bool) (MAX_QUERY_LENGTH : Nat)
    (file_path : List Char) (w : World Msg Resp) :
    ((get_file_format file_path).length + 1 ≤ MAX_QUERY_LENGTH →
      pgmoneta_ext_get_file env qr_null MAX_QUERY_LENGTH file_path w
          = query_execute env qr_null w
              ("SELECT pgmoneta_ext_get_file('".toList ++ file_path ++ "');".toList)
        ∧ attempted (pgmoneta_ext_get_file env qr_null MAX_QUERY_LENGTH file_path w).1.trace
          = attempted w.trace
              ++ ["SELECT pgmoneta_ext_get_file('".toList ++ file_path ++ "');".toList])
    ∧ ((get_files_format file_path).length + 1 ≤ MAX_QUERY_LENGTH →
      pgmoneta_ext_get_files env qr_null MAX_QUERY_LENGTH file_path w
          = query_execute env qr_null w
              ("SELECT pgmoneta_ext_get_files('".toList ++ file_path ++ "');".toList)
        ∧ attempted (pgmoneta_ext_get_files env qr_null MAX_QUERY_LENGTH file_path w).1.trace
          = attempted w.trace
              ++ ["SELECT pgmoneta_ext_get_files('".toList ++ file_path ++ "');".toList]) := by
  constructor
  · intro hfit
    have hs : snprintf MAX_QUERY_LENGTH (get_file_format file_path)
        = "SELECT pgmoneta_ext_get_file('".toList ++ file_path ++ "');".toList := by
      unfold snprintf
      rw [List.take_of_length_le (by omega)]
      rfl
    obtain ⟨e1, t1, a1, -⟩ := query_execute_trace env qr_null w
      ("SELECT pgmoneta_ext_get_file('".toList ++ file_path ++ "');".toList)
    simp only [pgmoneta_ext_get_file, hs, t1, attempted_append, a1, and_self]
  · intro hfit
    have hs : snprintf MAX_QUERY_LENGTH (get_files_format file_path)
        = "SELECT pgmoneta_ext_get_files('".toList ++ file_path ++ "');".toList := by
      unfold snprintf
      rw [List.take_of_length_le (by omega)]
      rfl
    obtain ⟨e1, t1, a1, -⟩ := query_execute_trace env qr_null w
      ("SELECT pgmoneta_ext_get_files('".toList ++ file_path ++ "');".toList)
    simp only [pgmoneta_ext_get_files, hs, t1, attempted_append, a1, and_self]

/-- C15 at a concrete input: a path that holds a single quote, with `MAX_QUERY_LENGTH` 1024;
the quote is not doubled. -/
theorem get_file_statement_witness :
    (pgmoneta_ext_get_file env_ok false 1024 short_path World.initial
          = query_execute env_ok false World.initial
              ("SELECT pgmoneta_ext_get_file('".toList ++ short_path ++ "');".toList)
        ∧ attempted (pgmoneta_ext_get_file env_ok false 1024 short_path World.initial).1.trace
          = attempted (World.initial : World (List Char) Unit).trace
              ++ ["SELECT pgmoneta_ext_get_file('".toList ++ short_path ++ "');".toList])
      ∧ (pgmoneta_ext_get_files env_ok false 1024 short_path World.initial
          = query_execute env_ok false World.initial
              ("SELECT pgmoneta_ext_get_files('".toList ++ short_path ++ "');".toList)
        ∧ attempted (pgmoneta_ext_get_files env_ok false 1024 short_path World.initial).1.trace
          = attempted (World.initial : World (List Char) Unit).trace
              ++ ["SELECT pgmoneta_ext_get_files('".toList ++ short_path ++ "');".toList])
      ∧ "SELECT pgmoneta_ext_get_file('".toList ++ short_path ++ "');".toList
          = "SELECT pgmoneta_ext_get_file('/tmp/it's');".toList :=
  ⟨(get_file_statement env_ok false 1024 short_path World.initial).1 (by decide),
    (get_file_statement env_ok false 1024 short_path World.initial).2 (by decide),
    by decide⟩

/-! ## Sizes of the buffers -/

/-- The loop with bounds computes the escaped string whenever that string and its terminator
fit the buffer. -/
theorem escape_into_fits (size : Nat) (s out : List Char)
    (h : (out ++ escape s).length + 1 ≤ size) :
    escape_into size s out = some (out ++ escape s) := by
  induction s generalizing out with
  | nil =>
    simp only [escape, List.append_nil] at h ⊢
    simp only [escape_into]
    rw [if_pos (by omega)]
  | cons c s ih =>
    by_cases hc : c = QUOTE
    · subst hc
      simp only [escape, if_true, List.length_append, List.length_cons, List.singleton_append]
        at h
      have h1 : out.length < size := by omega
      have h2 : (out ++ [QUOTE]).length < size := by simp; omega
      simp only [escape_into, if_true, store_byte, h1, h2]
      rw [ih (out ++ [QUOTE] ++ [QUOTE]) (by simp; omega)]
      simp [escape]
    · simp only [escape, hc, if_false, List.nil_append, List.length_append, List.length_cons]
        at h
      have h1 : out.length < size := by omega
      simp only [escape_into, hc, if_false, store_byte, h1, if_true]
      rw [ih (out ++ [c]) (by simp; omega)]
      simp [escape, hc]

/-- The bytes stored by `fgets` number at most what it may store. -/
theorem fgets_read_length (k : Nat) (s : List Char) : (fgets_read k s).1.length ≤ k := by
  induction k generalizing s with
  | zero => simp [fgets_read]
  | succ k ih =>
    cases s with
    | nil => simp [fgets_read]
    | cons c s =>
      by_cases hc : c = LF
      · simp [fgets_read, hc]
      · simp only [fgets_read, hc, if_false, List.length_cons]
        have := ih s
        omega

/-- A line returned by `fgets(line, 128, file)` has at most 127 bytes. -/
theorem fgets_line_length (stream line rest : List Char)
    (h : fgets 128 stream = some (line, rest)) : line.length ≤ 127 := by
  cases stream with
  | nil => simp [fgets] at h
  | cons x s =>
    simp only [fgets, Option.some.injEq] at h
    change fgets_read 127 (x :: s) = (line, rest) at h
    have := fgets_read_length 127 (x :: s)
    rw [h] at this
    exact this

/-- The fields of a string and the commas between them make up the string. -/
theorem split_fields_length (s : List Char) :
    ((split_fields s).map List.length).sum + (split_fields s).length = s.length + 1 := by
  induction s with
  | nil => simp [split_fields]
  | cons c s ih =>
    by_cases hc : c = COMMA
    · simp only [split_fields, hc, if_true, List.map_cons, List.sum_cons, List.length_nil,
        List.length_cons]
      omega
    · rw [split_fields, if_neg hc]
      cases hs : split_fields s with
      | nil => rw [hs] at ih; simp at ih
      | cons r rs =>
        rw [hs] at ih
        simp only [List.map_cons, List.sum_cons, List.length_cons] at ih ⊢
        omega

/-- Dropping the empty fields does not change the total length. -/
theorem sum_length_filter (l : List (List Char)) :
    ((l.filter (fun r => !r.isEmpty)).map List.length).sum = (l.map List.length).sum := by
  induction l with
  | nil => rfl
  | cons r l ih =>
    cases r with
    | nil => simp [ih]
    | cons x r => simp [ih]

/-- Two runs and the comma that separates them fit in the string. -/
theorem comma_runs_length (s f c : List Char) (rest : List (List Char))
    (h : comma_runs s = f :: c :: rest) : f.length + c.length + 1 ≤ s.length := by
  have h1 := split_fields_length s
  have h2 := sum_length_filter (split_fields s)
  have h3 : (comma_runs s).length ≤ (split_fields s).length := List.length_filter_le _ _
  unfold comma_runs at h
  rw [h] at h2
  simp only [comma_runs, h, List.length_cons] at h3
  simp only [List.map_cons, List.sum_cons] at h2
  omega

/-- The two fields of a pair and the comma that separates them fit in the line. -/
theorem manifest_tokens_length (line filename checksum : List Char)
    (ht : manifest_tokens line = some (filename, checksum)) :
    filename.length + checksum.length + 1 ≤ line.length := by
  rw [manifest_tokens_comma_runs] at ht
  cases hr : comma_runs (c_str line) with
  | nil => simp [hr] at ht
  | cons f rs =>
    cases rs with
    | nil => simp [hr] at ht
    | cons c rs2 =>
      simp only [hr, Option.some.injEq, Prod.mk.injEq] at ht
      obtain ⟨rfl, rfl⟩ := ht
      have h1 := comma_runs_length (c_str line) f c rs2 hr
      have h2 : (c_str line).length ≤ line.length :=
        (List.takeWhile_sublist _).length_le
      have h3 : (cut_eol c).length ≤ c.length := (List.takeWhile_sublist _).length_le
      omega

/-- C16: for every line the loop reads (at most 127 bytes, which with the terminator fit the
128-byte `line`) and every pair it takes from the line, the escaping loops stay inside their
512-byte buffers, terminator included, and leave the escaped filename and the escaped
checksum there; the expanded INSERT with its terminator fits the 2048-byte `insert_sql`, so
`snprintf` does not cut it. -/
theorem buffers_fit (stream line rest filename checksum : List Char)
    (hf : fgets 128 stream = some (line, rest))
    (ht : manifest_tokens line = some (filename, checksum)) :
    line.length + 1 ≤ 128
      ∧ escape_into 512 filename [] = some (escape filename)
      ∧ escape_into 512 checksum [] = some (escape checksum)
      ∧ (escape filename).length + 1 ≤ 512
      ∧ (escape checksum).length + 1 ≤ 512
      ∧ (insert_format (escape filename) (escape checksum)).length + 1 ≤ 2048
      ∧ insert_sql filename checksum = insert_format (escape filename) (escape checksum) := by
  have hl := fgets_line_length stream line rest hf
  have ht2 := manifest_tokens_length line filename checksum ht
  have e1 := escape_length_le filename
  have e2 := escape_length_le checksum
  have hfmt := insert_format_length (escape filename) (escape checksum)
  refine ⟨by omega, ?_, ?_, by omega, by omega, by omega, ?_⟩
  · have := escape_into_fits 512 filename [] (by simp; omega)
    simpa using this
  · have := escape_into_fits 512 checksum [] (by simp; omega)
    simpa using this
  · unfold insert_sql snprintf
    exact List.take_of_length_le (by omega)

/-- C16 at a concrete input: the line `a,b`. -/
theorem buffers_fit_witness :
    one_line.length + 1 ≤ 128
      ∧ escape_into 512 [Char.ofNat 97] [] = some (escape [Char.ofNat 97])
      ∧ escape_into 512 [Char.ofNat 98] [] = some (escape [Char.ofNat 98])
      ∧ (escape [Char.ofNat 97]).length + 1 ≤ 512
      ∧ (escape [Char.ofNat 98]).length + 1 ≤ 512
      ∧ (insert_format (escape [Char.ofNat 97]) (escape [Char.ofNat 98])).length + 1 ≤ 2048
      ∧ insert_sql [Char.ofNat 97] [Char.ofNat 98]
          = insert_format (escape [Char.ofNat 97]) (escape [Char.ofNat 98]) :=
  buffers_fit one_line one_line [] [Char.ofNat 97] [Char.ofNat 98] (by decide) (by decide)

/-! ## The cut of the checksum -/

/-- A token whose CR and LF bytes are all at its end loses exactly those bytes. -/
theorem cut_eol_trailing (body term : List Char) (hb : ∀ x ∈ body, x ≠ CR ∧ x ≠ LF)
    (ht : ∀ x ∈ term, x = CR ∨ x = LF) : cut_eol (body ++ term) = body := by
  unfold cut_eol
  rw [List.takeWhile_append_of_pos (fun x hx => by simpa using hb x hx)]
  cases term with
  | nil => simp
  | cons x term =>
    have hx := ht x (by simp)
    have : decide (x ≠ CR ∧ x ≠ LF) = false := by
      rcases hx with h | h <;> subst h <;> decide
    rw [List.takeWhile_cons_of_neg (by rw [this]; simp)]
    simp

/-- C17 as stated fails: for the line `f,ab<CR>cd` the checksum inserted is `ab`, not
`ab<CR>cd`: the bytes after the carriage return are dropped with it. -/
theorem checksum_cut_at_interior_cr :
    manifest_entries cr_in_checksum.length cr_in_checksum
        = [([Char.ofNat 102], [Char.ofNat 97, Char.ofNat 98])]
      ∧ sent (pgmoneta_ext_create_manifest_table env_ok false manifest_path
          (some cr_in_checksum) World.initial).1.trace
        = [create_table_sql,
          "INSERT INTO backup_manifest (filename, checksum) VALUES ('f', 'ab');".toList]
      ∧ comma_runs (c_str cr_in_checksum)
        = [[Char.ofNat 102], [Char.ofNat 97, Char.ofNat 98, CR, Char.ofNat 99, Char.ofNat 100, LF]]
      := by
  decide

/-- C17, amended: for every line that yields an INSERT, the checksum used is the second
token of the line cut at its first CR or LF. When the CR and LF bytes of the token are all at
its end, this removes exactly the trailing line terminator and no other byte. -/
theorem checksum_is_cut_token (line filename checksum : List Char)
    (h : manifest_tokens line = some (filename, checksum)) :
    ∃ tok, (comma_runs (c_str line))[1]? = some tok
      ∧ checksum = cut_eol tok
      ∧ checksum = tok.take (strcspn tok [CR, LF])
      ∧ ∀ body term, tok = body ++ term → (∀ x ∈ body, x ≠ CR ∧ x ≠ LF) →
          (∀ x ∈ term, x = CR ∨ x = LF) → checksum = body := by
  rw [manifest_tokens_comma_runs] at h
  cases hr : comma_runs (c_str line) with
  | nil => simp [hr] at h
  | cons f rs =>
    cases rs with
    | nil => simp [hr] at h
    | cons c rs2 =>
      simp only [hr, Option.some.injEq, Prod.mk.injEq] at h
      obtain ⟨-, rfl⟩ := h
      refine ⟨c, by simp, rfl, (take_strcspn c).symm, ?_⟩
      intro body term hc hb ht
      rw [hc]
      exact cut_eol_trailing body term hb ht

/-- C17, amended, at a concrete input: the line `f,ab<CR><LF>` gives the checksum `ab`. -/
theorem checksum_is_cut_token_witness :
    ∃ tok, (comma_runs (c_str crlf_line))[1]? = some tok
      ∧ [Char.ofNat 97, Char.ofNat 98] = cut_eol tok
      ∧ [Char.ofNat 97, Char.ofNat 98] = tok.take (strcspn tok [CR, LF])
      ∧ ∀ body term, tok = body ++ term → (∀ x ∈ body, x ≠ CR ∧ x ≠ LF) →
          (∀ x ∈ term, x = CR ∨ x = LF) → [Char.ofNat 97, Char.ofNat 98] = body :=
  checksum_is_cut_token crlf_line [Char.ofNat 102] [Char.ofNat 97, Char.ofNat 98] (by decide)

/-! ## Quotes in the escaped string -/

/-- After a run of even length, the runs of quotes of an escaped string have even length. -/
theorem quote_runs_from_escape (s : List Char) (n : Nat) (hn : n % 2 = 0) :
    ∀ k ∈ quote_runs_from (escape s) n, k % 2 = 0 := by
  induction s generalizing n with
  | nil =>
    intro k hk
    simp only [escape, quote_runs_from] at hk
    by_cases h0 : n = 0
    · simp [h0] at hk
    · simp only [h0, if_false, List.mem_singleton] at hk
      subst hk; exact hn
  | cons c s ih =>
    intro k hk
    by_cases hc : c = QUOTE
    · subst hc
      simp only [escape, if_true, List.singleton_append, quote_runs_from] at hk
      exact ih (n + 1 + 1) (by omega) k hk
    · simp only [escape, hc, if_false, List.nil_append, quote_runs_from, List.mem_append] at hk
      rcases hk with h | h
      · by_cases h0 : n = 0
        · simp [h0] at h
        · simp only [h0, if_false, List.mem_singleton] at h
          subst h; exact hn
      · exact ih 0 rfl k h

/-- The scanner reads an escaped string followed by a closing quote back to the string,
provided the byte after the closing quote is not a quote. -/
theorem scan_literal_escape (s rest : List Char) (hrest : rest.head? ≠ some QUOTE) :
    scan_literal (escape s ++ QUOTE :: rest) = some (s, rest) := by
  induction s with
  | nil =>
    cases rest with
    | nil => simp [escape, scan_literal]
    | cons d r =>
      have hd : d ≠ QUOTE := by simpa using hrest
      simp [escape, scan_literal, hd]
  | cons c s ih =>
    by_cases hc : c = QUOTE
    · subst hc
      simp [escape, scan_literal, ih]
    · cases ht : escape s ++ QUOTE :: rest with
      | nil => simp at ht
      | cons d t =>
        rw [ht] at ih
        simp [escape, hc, ht, scan_literal, ih]

/-- C18: for every string, every maximal run of single quotes of the escaped string has even
length; and in the INSERT built from any filename and checksum, a scanner that reads two
quotes as one escaped quote, started after the opening quote of either literal, reaches the
closing delimiter of that literal and decodes the original string. -/
theorem escaped_literal_is_read_back (filename checksum : List Char) :
    (∀ k ∈ quote_runs (escape filename), k % 2 = 0)
      ∧ (∀ k ∈ quote_runs (escape checksum), k % 2 = 0)
      ∧ insert_format (escape filename) (escape checksum)
          = "INSERT INTO backup_manifest (filename, checksum) VALUES (".toList
            ++ QUOTE :: (escape filename ++ QUOTE :: (", ".toList
            ++ QUOTE :: (escape checksum ++ QUOTE :: ");".toList)))
      ∧ scan_literal (escape filename ++ QUOTE :: (", ".toList
            ++ QUOTE :: (escape checksum ++ QUOTE :: ");".toList)))
          = some (filename, ", ".toList ++ QUOTE :: (escape checksum ++ QUOTE :: ");".toList))
      ∧ scan_literal (escape checksum ++ QUOTE :: ");".toList)
          = some (checksum, ");".toList) := by
  refine ⟨quote_runs_from_escape filename 0 rfl, quote_runs_from_escape checksum 0 rfl,
    ?_, ?_, ?_⟩
  · have h1 : "INSERT INTO backup_manifest (filename, checksum) VALUES ('".toList
        = "INSERT INTO backup_manifest (filename, checksum) VALUES (".toList ++ [QUOTE] := by
      decide
    have h2 : "', '".toList = QUOTE :: (", ".toList ++ [QUOTE]) := by decide
    have h3 : "');".toList = QUOTE :: ");".toList := by decide
    simp only [insert_format, h1, h2, h3, List.append_assoc, List.singleton_append,
      List.cons_append, List.nil_append]
  · have h : ", ".toList = COMMA :: [Char.ofNat 32] := by decide
    refine scan_literal_escape filename _ ?_
    rw [h]
    simp only [List.cons_append, List.head?_cons, ne_eq, Option.some.injEq]
    decide
  · exact scan_literal_escape checksum _ (by decide)

/-- The runs of quotes of a sample string. -/
theorem quote_runs_sample : quote_runs "a''b'c".toList = [2, 1] := by decide

/-! ## Tokenisation -/

/-- C19: tokenisation follows `strtok` with the delimiter `,`. For every line read, taken as
the C string in the buffer, the first `strtok` call returns the first maximal non-empty run
of non-comma bytes and the second call the second such run; the pair used is the first run
and the second run cut at its first CR or LF, and the line is skipped when there are fewer
than two runs. No run is empty or holds a comma, runs after the second are not looked at,
and the lines `,a,b`, `a,,b` and `a,b` all give the INSERT of `a` and `b`. -/
theorem tokenisation_follows_strtok (line : List Char) :
    (strtok (c_str line) [COMMA]).1 = (comma_runs (c_str line))[0]?
      ∧ (strtok (strtok (c_str line) [COMMA]).2 [COMMA]).1 = (comma_runs (c_str line))[1]?
      ∧ manifest_tokens line
          = (match comma_runs (c_str line) with
            | filename :: checksum :: _ => some (filename, cut_eol checksum)
            | _ => none)
      ∧ (∀ r ∈ comma_runs (c_str line), r ≠ [] ∧ ∀ x ∈ r, x ≠ COMMA)
      ∧ comma_variants.map manifest_tokens
          = [some ("a".toList, "b".toList), some ("a".toList, "b".toList),
              some ("a".toList, "b".toList)]
      ∧ comma_variants.map (fun l => sent (pgmoneta_ext_create_manifest_table env_ok false
            manifest_path (some l) World.initial).1.trace)
          = List.replicate 3 [create_table_sql,
              "INSERT INTO backup_manifest (filename, checksum) VALUES ('a', 'b');".toList]
      ∧ manifest_tokens "a,b,c,d\n".toList = some ("a".toList, "b".toList) := by
  obtain ⟨h1, h2⟩ := strtok_comma_runs (c_str line)
  obtain ⟨h3, -⟩ := strtok_comma_runs (strtok (c_str line) [COMMA]).2
  refine ⟨?_, ?_, manifest_tokens_comma_runs line, ?_, by decide, by decide, by decide⟩
  · rw [h1]; cases comma_runs (c_str line) <;> simp
  · rw [h3, h2]
    cases comma_runs (c_str line) with
    | nil => simp
    | cons f rs => cases rs <;> simp
  · intro r hr
    obtain ⟨hne, hm⟩ := comma_runs_mem (c_str line) r hr
    exact ⟨hne, fun x hx => (hm x hx).2⟩

/-! ## Lines longer than the buffer -/

/-- At the end of the stream `fgets` stores nothing. -/
theorem fgets_read_nil (k : Nat) : fgets_read k [] = ([], []) := by
  cases k <;> rfl

/-- The first chunk is what one bounded read stores after the bytes already in the chunk. -/
theorem line_chunks_from_eq (n : Nat) (s cur : List Char) (hcur : cur.length < n) :
    line_chunks_from n s cur =
      match s with
      | [] => if cur.isEmpty then [] else [cur]
      | c :: s1 =>
        (cur ++ (fgets_read (n - cur.length) (c :: s1)).1) ::
          line_chunks_from n (fgets_read (n - cur.length) (c :: s1)).2 [] := by
  induction s generalizing cur with
  | nil => simp [line_chunks_from]
  | cons c s ih =>
    obtain ⟨k, hk⟩ : ∃ k, n - cur.length = k + 1 := ⟨n - cur.length - 1, by omega⟩
    simp only [hk]
    by_cases hc : c = LF
    · simp [line_chunks_from, fgets_read, hc]
    · by_cases hfull : cur.length + 1 = n
      · have hk0 : k = 0 := by omega
        subst hk0
        simp [line_chunks_from, fgets_read, hc, hfull]
      · have hlen : (cur ++ [c]).length < n := by simp; omega
        have hk2 : n - (cur ++ [c]).length = k := by simp; omega
        rw [line_chunks_from, if_neg (by simp [hc, hfull]), ih (cur ++ [c]) hlen]
        simp only [fgets_read, hc, if_false, hk2]
        cases s with
        | nil => simp [fgets_read_nil, line_chunks_from]
        | cons d s2 => simp

/-- The chunks of a stream are the line returned by `fgets` followed by the chunks of the
rest of the stream. -/
theorem line_chunks_fgets (s : List Char) :
    line_chunks s =
      match fgets 128 s with
      | none => []
      | some (line, rest) => line :: line_chunks rest := by
  unfold line_chunks
  rw [line_chunks_from_eq 127 s [] (by decide)]
  cases s with
  | nil => simp [fgets]
  | cons c s1 => simp [fgets]

/-- The pairs read from a stream are those of its chunks, each tokenised on its own. -/
theorem manifest_entries_chunks (fuel : Nat) (s : List Char) (h : s.length ≤ fuel) :
    manifest_entries fuel s = (line_chunks s).filterMap manifest_tokens := by
  induction fuel generalizing s with
  | zero =>
    have : s = [] := List.length_eq_zero.mp (Nat.le_zero.mp h)
    subst this
    simp [manifest_entries, line_chunks, line_chunks_from]
  | succ fuel ih =>
    rw [manifest_entries, line_chunks_fgets]
    cases hf : fgets 128 s with
    | none => simp
    | some p =>
      obtain ⟨line, rest⟩ := p
      have hlt := fgets_rest_length 128 (by decide) s line rest hf
      have hrest := ih rest (by omega)
      cases ht : manifest_tokens line with
      | none =>
        simp only [ht]
        rw [List.filterMap_cons_none ht, hrest]
      | some e =>
        simp only [ht]
        rw [List.filterMap_cons_some ht, hrest]

/-- The chunks, put end to end, are the stream after the chunk being filled. -/
theorem line_chunks_from_flatten (n : Nat) (s cur : List Char) :
    (line_chunks_from n s cur).flatten = cur ++ s := by
  induction s generalizing cur with
  | nil =>
    cases cur with
    | nil => simp [line_chunks_from]
    | cons x cur => simp [line_chunks_from]
  | cons c s ih =>
    rw [line_chunks_from]
    split
    · simp [ih]
    · rw [ih]; simp

/-- Every chunk is non-empty, has at most `n` bytes and holds no line feed before its last
byte. -/
theorem line_chunks_from_bounds (n : Nat) (s cur : List Char) (hcur : cur.length < n)
    (hLF : ∀ x ∈ cur, x ≠ LF) :
    ∀ ch ∈ line_chunks_from n s cur,
      ch ≠ [] ∧ ch.length ≤ n ∧ ∀ x ∈ ch.dropLast, x ≠ LF := by
  induction s generalizing cur with
  | nil =>
    intro ch hch
    cases cur with
    | nil => simp [line_chunks_from] at hch
    | cons x cur =>
      simp only [line_chunks_from, List.isEmpty_cons, Bool.false_eq_true, if_false,
        List.mem_singleton] at hch
      subst hch
      exact ⟨by simp, by omega, fun y hy => hLF y (List.mem_of_mem_dropLast hy)⟩
  | cons c s ih =>
    intro ch hch
    rw [line_chunks_from] at hch
    split at hch
    · have hn : 0 < n := by omega
      simp only [List.mem_cons] at hch
      rcases hch with h | h
      · subst h
        refine ⟨by simp, by simp; omega, ?_⟩
        simpa using hLF
      · exact ih [] hn (by simp) ch h
    · rename_i hcond
      simp only [not_or] at hcond
      refine ih (cur ++ [c]) (by simp; omega) ?_ ch hch
      intro x hx
      simp only [List.mem_append, List.mem_singleton] at hx
      rcases hx with h | h
      · exact hLF x h
      · subst h; exact hcond.1

/-- A member of a list without its last element is its head or a member of its tail without
its last element. -/
theorem mem_dropLast_cons (x ch : List Char) (l : List (List Char))
    (h : ch ∈ (x :: l).dropLast) : ch = x ∨ ch ∈ l.dropLast := by
  cases l with
  | nil => simp at h
  | cons y l => simpa using h

/-- Every chunk but the last is closed by a line feed or is full. -/
theorem line_chunks_from_closed (n : Nat) (s cur : List Char) :
    ∀ ch ∈ (line_chunks_from n s cur).dropLast, ch.getLast? = some LF ∨ ch.length = n := by
  induction s generalizing cur with
  | nil =>
    intro ch hch
    cases cur with
    | nil => simp [line_chunks_from] at hch
    | cons x cur => simp [line_chunks_from] at hch
  | cons c s ih =>
    intro ch hch
    rw [line_chunks_from] at hch
    split at hch
    · rename_i hcond
      rcases mem_dropLast_cons _ _ _ hch with h | h
      · subst h
        rcases hcond with h1 | h1
        · left; simp [h1]
        · right; simpa using h1
      · exact ih [] ch h
    · exact ih (cur ++ [c]) ch hch

set_option maxRecDepth 100000 in
/-- C20: over-long lines are neither rejected nor skipped. For every file content the loop
inserts the pairs of the successive chunks of a read bounded to 127 bytes, each chunk
tokenised on its own; the chunks put end to end are the file, each is non-empty, has at most
127 bytes and no line feed before its last byte, and each but the last ends with a line feed
or has 127 bytes. The single line `long_line` of 141 bytes is read as two chunks and gives
two INSERTs, whose fields `y...` are the two pieces of its 70-byte second field. -/
theorem long_lines_are_read_in_chunks (env : Env Msg Resp) (qr_null : Bool)
    (content : List Char) (w : World Msg Resp) :
    manifest_loop env qr_null content.length content w
        = insert_entries env qr_null ((line_chunks content).filterMap manifest_tokens) w
      ∧ (line_chunks content).flatten = content
      ∧ (∀ ch ∈ line_chunks content,
          ch ≠ [] ∧ ch.length ≤ 127 ∧ ∀ x ∈ ch.dropLast, x ≠ LF)
      ∧ (∀ ch ∈ (line_chunks content).dropLast, ch.getLast? = some LF ∨ ch.length = 127)
      ∧ long_line.length = 141
      ∧ long_line.getLast? = some LF
      ∧ (∀ x ∈ long_line.dropLast, x ≠ LF)
      ∧ line_chunks long_line
          = [List.replicate 63 (Char.ofNat 120) ++ COMMA :: List.replicate 63 (Char.ofNat 121),
              List.replicate 7 (Char.ofNat 121) ++ COMMA :: List.replicate 5 (Char.ofNat 122)
                ++ [LF]]
      ∧ sent (pgmoneta_ext_create_manifest_table env_ok false manifest_path (some long_line)
          World.initial).1.trace
        = [create_table_sql,
            insert_format (List.replicate 63 (Char.ofNat 120))
              (List.replicate 63 (Char.ofNat 121)),
            insert_format (List.replicate 7 (Char.ofNat 121))
              (List.replicate 5 (Char.ofNat 122))]
      ∧ (pgmoneta_ext_create_manifest_table env_ok false manifest_path (some long_line)
          World.initial).2 = 0 := by
  refine ⟨?_, ?_, ?_, ?_, by decide, by decide, by decide, by decide, by decide, by decide⟩
  · rw [manifest_loop_eq, manifest_entries_chunks _ _ (le_refl _)]
  · have := line_chunks_from_flatten 127 content []
    simpa [line_chunks] using this
  · exact line_chunks_from_bounds 127 content [] (by decide) (by simp)
  · exact line_chunks_from_closed 127 content []

end Pgmoneta
